import Mathlib

/-!
Verification development for the openicf-connector-service host.

Each definition is a shallow embedding of a function of the repository,
translated from the TypeScript source.  Machine integers of the source are
modeled as `Nat` (JavaScript timestamps and counters stay far below any
overflow boundary, and the source performs no wrapping arithmetic).
Asynchronous functions are modeled as pure state transformers: the argument
function supplied to `CircuitBreaker.exec` is replaced by the outcome it
would produce (`fnOk`), and JavaScript exceptions are modeled with `Except`
or explicit outcome constructors.
-/

namespace Host

/-! ## Circuit breaker (src/core/CircuitBreaker.ts) -/

/-- The three breaker states.  The source spells HALF_OPEN as "HALF". -/
inductive BState
  | CLOSED
  | OPEN
  | HALF
deriving DecidableEq, Repr

/-- Constructor options of `CircuitBreaker` (src/core/CircuitBreaker.ts, lines 10-18). -/
structure BreakerOpts where
  failureThreshold : Nat
  successThreshold : Nat
  halfOpenAfterMs : Nat
  maxConcurrent : Nat
  timeoutMs : Nat
deriving DecidableEq, Repr

/-- The default options object of the source constructor. -/
def defaultBreakerOpts : BreakerOpts :=
  { failureThreshold := 5, successThreshold := 2, halfOpenAfterMs := 10000,
    maxConcurrent := 20, timeoutMs := 30000 }

/-- Mutable fields of `CircuitBreaker` (src/core/CircuitBreaker.ts, lines 4-8). -/
structure Breaker where
  state : BState
  failures : Nat
  successes : Nat
  openedAt : Nat
  inflight : Nat
deriving DecidableEq, Repr

/-- Initial breaker state: CLOSED with all counters zero. -/
def Breaker.start : Breaker :=
  { state := .CLOSED, failures := 0, successes := 0, openedAt := 0, inflight := 0 }

/-- `open()` (line 59): go OPEN and record the current time. -/
def Breaker.toOpen (b : Breaker) (now : Nat) : Breaker :=
  { b with state := .OPEN, openedAt := now }

/-- `close()` (line 60): go CLOSED, resetting both counters. -/
def Breaker.toClosed (b : Breaker) : Breaker :=
  { b with state := .CLOSED, failures := 0, successes := 0 }

/-- `onSuccess()` (lines 46-53). -/
def onSuccess (o : BreakerOpts) (b : Breaker) : Breaker :=
  if b.state = .HALF then
    let b1 := { b with successes := b.successes + 1 }
    if o.successThreshold ≤ b1.successes then b1.toClosed else b1
  else
    { b with failures := 0 }

/-- `onFailure()` (lines 54-58).  `now` is the `Date.now()` read inside `open()`. -/
def onFailure (o : BreakerOpts) (b : Breaker) (now : Nat) : Breaker :=
  if b.state = .HALF then b.toOpen now
  else
    let b1 := { b with failures := b.failures + 1 }
    if o.failureThreshold ≤ b1.failures then b1.toOpen now else b1

/-- Lines 22-24 of `exec`: if OPEN and strictly more than `halfOpenAfterMs`
has passed since `openedAt`, move to HALF and reset both counters.
JavaScript evaluates `now - openedAt > halfOpenAfterMs` on numbers; for the
clock values of a run (`openedAt ≤ now`) truncated `Nat` subtraction agrees. -/
def halfOpenCheck (o : BreakerOpts) (b : Breaker) (now : Nat) : Breaker :=
  if b.state = .OPEN ∧ o.halfOpenAfterMs < now - b.openedAt then
    { b with state := .HALF, failures := 0, successes := 0 }
  else b

/-- Result of the synchronous prelude of `exec` (lines 21-28), before the
supplied function is started. -/
inductive EnterRes
  | rejectedOpen
  | rejectedBusy
  | admitted
deriving DecidableEq, Repr

/-- Lines 21-28 of `exec`: the half-open transition, the fail-fast checks and
the `inflight` increment.  When the result is `rejectedOpen` (throw
`CircuitOpen`) or `rejectedBusy` (throw `TooManyRequests`) the supplied
function has not been started. -/
def execEnter (o : BreakerOpts) (b : Breaker) (now : Nat) : Breaker × EnterRes :=
  let b1 := halfOpenCheck o b now
  if b1.state = .OPEN then (b1, .rejectedOpen)
  else if o.maxConcurrent ≤ b1.inflight then (b1, .rejectedBusy)
  else ({ b1 with inflight := b1.inflight + 1 }, .admitted)

/-- Lines 30-43 of `exec` after the awaited race settled: `onSuccess` or
`onFailure` followed by the `finally` block that decrements `inflight`.
`ok = false` covers both a rejected promise and the `BreakerTimeout` race
(the source counts a timeout as a failure). -/
def execExit (o : BreakerOpts) (b : Breaker) (now : Nat) (ok : Bool) : Breaker :=
  let b1 := if ok then onSuccess o b else onFailure o b now
  { b1 with inflight := b1.inflight - 1 }

/-- Observable outcome of one `exec` call.  `ran ok` means the supplied
function was invoked and settled with success (`ok = true`) or failure;
`circuitOpen` and `tooManyRequests` mean the call threw without invoking it. -/
inductive ExecOutcome
  | circuitOpen
  | tooManyRequests
  | ran (ok : Bool)
deriving DecidableEq, Repr

/-- One sequential `exec` call (src/core/CircuitBreaker.ts, lines 20-44):
the prelude followed, for an admitted call, by the exit path determined by
the outcome `fnOk` of the supplied function. -/
def exec (o : BreakerOpts) (b : Breaker) (now : Nat) (fnOk : Bool) : Breaker × ExecOutcome :=
  match execEnter o b now with
  | (b1, .rejectedOpen) => (b1, .circuitOpen)
  | (b1, .rejectedBusy) => (b1, .tooManyRequests)
  | (b1, .admitted) => (execExit o b1 now fnOk, .ran fnOk)

/-! ## TTL cache and cache keys (src/core/Cache.ts, src/core/ConnectorFacade.ts) -/

/-- One stored cache entry: value, insertion time, and per-entry TTL in ms. -/
structure CacheEntry (V : Type) where
  value : V
  insertedAt : Nat
  ttl : Nat
deriving DecidableEq, Repr

/-- The lru-cache instance of `makeCache()`, modeled as an association list
from key strings to entries.  The capacity bound (`max: 10_000`) only evicts
least-recently-used entries beyond 10,000 live keys; none of the properties
proved below depend on eviction or on recency order, so the model keeps all
entries and lets TTL alone decide visibility (`allowStale: false`). -/
abbrev Cache (V : Type) : Type := List (String × CacheEntry V)

/-- An entry is fresh while at most `ttl` ms have passed since insertion. -/
def entryFresh (e : CacheEntry V) (now : Nat) : Bool :=
  decide (now - e.insertedAt ≤ e.ttl)

/-- `cache.get(k)`: the stored value, only if present and not expired. -/
def cacheGet (c : Cache V) (k : String) (now : Nat) : Option V :=
  match List.lookup k c with
  | some e => if entryFresh e now then some e.value else none
  | none => none

/-- `cache.has(k)`: present and not expired. -/
def cacheHas (c : Cache V) (k : String) (now : Nat) : Bool :=
  (cacheGet c k now).isSome

/-- `cache.set(k, v, { ttl })`: replace any entry under `k`. -/
def cacheSet (c : Cache V) (k : String) (v : V) (now ttl : Nat) : Cache V :=
  (k, ⟨v, now, ttl⟩) :: List.filter (fun p => p.1 ≠ k) c

/-- `startsWith` of JavaScript strings (code-unit prefix; the keys built here
are ASCII, where Lean characters and UTF-16 code units agree). -/
def jsStartsWith (s pre : String) : Bool :=
  List.isPrefixOf pre.data s.data

/-- `ConnectorFacade.invalidateCache(parts)` (lines 12-17): delete every key
of the shared cache that starts with the prefix string. -/
def invalidatePrefix (c : Cache V) (p : String) : Cache V :=
  List.filter (fun e => ! jsStartsWith e.1 p) c

/-- Double-quote and backslash characters, used by the JSON encoding of cache
key parts. -/
def dq : Char := Char.ofNat 34

/-- The backslash character. -/
def bs : Char := Char.ofNat 92

/-- `JSON.stringify` of a string: wrap in double quotes, escaping embedded
quotes and backslashes.  (Control-character escapes are not modeled; no key
part in the claims contains one.) -/
def jsonString (s : String) : String :=
  String.mk (dq :: s.data.foldr
    (fun ch acc => if ch = dq ∨ ch = bs then bs :: ch :: acc else ch :: acc) [dq])

/-- A cache-key part as passed to `key(parts)`: the facade only ever passes
strings and arrays of strings. -/
inductive KeyPart
  | str (s : String)
  | strList (xs : List String)
deriving DecidableEq, Repr

/-- `JSON.stringify` of one key part. -/
def KeyPart.stringify : KeyPart → String
  | .str s => jsonString s
  | .strList xs => "[" ++ String.intercalate "," (xs.map jsonString) ++ "]"

/-- `Array.prototype.join("|")`. -/
def joinBar : List String → String
  | [] => ""
  | [x] => x
  | x :: y :: ys => x ++ "|" ++ joinBar (y :: ys)

/-- `key(parts)` (ConnectorFacade.ts line 7): JSON encodings joined by `|`. -/
def keyOf (parts : List KeyPart) : String :=
  joinBar (parts.map KeyPart.stringify)

/-- Code-unit lexicographic strict order on character lists: the JavaScript
`<` relation on strings (Lean characters are code points; on the ASCII
strings appearing here they agree with UTF-16 code units). -/
def charListLt : List Char → List Char → Bool
  | [], [] => false
  | [], _ :: _ => true
  | _ :: _, [] => false
  | a :: as1, b :: bs1 =>
    if a.val < b.val then true
    else if b.val < a.val then false
    else charListLt as1 bs1

/-- JavaScript string `<`. -/
def jsStrLt (a b : String) : Bool :=
  charListLt a.data b.data

/-- Insert a string into an ascending list (stable). -/
def insertSorted (x : String) : List String → List String
  | [] => [x]
  | y :: ys => if jsStrLt y x then y :: insertSorted x ys else x :: y :: ys

/-- `Array.prototype.sort()` on strings: ascending code-unit lexicographic
order (insertion sort; stable, same order as the JS default comparator). -/
def jsSortStrings (xs : List String) : List String :=
  xs.foldr insertSorted []

/-- The projection component of a `get` cache key:
`options?.attributesToGet?.slice().sort() || []`. -/
def sortedAttrs (attrs : Option (List String)) : List String :=
  match attrs with
  | some xs => jsSortStrings xs
  | none => []

/-- The cache key of `ConnectorFacade.get` (line 50). -/
def getKey (id oc uid : String) (attrs : Option (List String)) : String :=
  keyOf [.str "get", .str id, .str oc, .str uid, .strList (sortedAttrs attrs)]

/-- The invalidation prefix used by `update`/`delete` (lines 61, 69). -/
def getInvalidationPrefixOf (id oc uid : String) : String :=
  keyOf [.str "get", .str id, .str oc, .str uid]

/-- The cache key of `ConnectorFacade.schema` (line 28). -/
def schemaKey (id : String) : String :=
  keyOf [.str "schema", .str id]

/-! ## Connector facade (src/core/ConnectorFacade.ts) -/

/-- Facade-visible state: the shared cache plus the private breaker. -/
structure FacadeSt (V : Type) where
  cache : Cache V
  breaker : Breaker
deriving DecidableEq, Repr

/-- Error outcomes a facade operation can surface. -/
inductive OpErr
  | circuitOpen
  | tooManyRequests
  | backend
deriving DecidableEq, Repr

/-- Result of `schema`/`update`/`addAttributeValues`/`removeAttributeValues`:
`cached` = served from the cache without running the breaker or the impl,
`fresh` = obtained from the impl through the breaker. -/
inductive CallRes (V : Type)
  | cached (v : V)
  | fresh (v : V)
  | err (e : OpErr)
deriving DecidableEq, Repr

/-- Result of `get`: the impl may also return null (modeled `nullRes`). -/
inductive GetRes (V : Type)
  | cached (v : V)
  | fresh (v : V)
  | nullRes
  | err (e : OpErr)
deriving DecidableEq, Repr

/-- `ConnectorFacade.schema()` (lines 27-37): serve a fresh cache entry under
`["schema", id]` directly; otherwise run the impl through the breaker and
cache a successful result for 5 minutes.  `implRes` is the outcome the impl
call would produce if invoked. -/
def facadeSchema (o : BreakerOpts) (st : FacadeSt V) (id : String) (now : Nat)
    (implRes : Except Unit V) : FacadeSt V × CallRes V :=
  let k := schemaKey id
  match cacheGet st.cache k now with
  | some v => (st, .cached v)
  | none =>
    match execEnter o st.breaker now with
    | (b1, .rejectedOpen) => (⟨st.cache, b1⟩, .err .circuitOpen)
    | (b1, .rejectedBusy) => (⟨st.cache, b1⟩, .err .tooManyRequests)
    | (b1, .admitted) =>
      match implRes with
      | .ok v => (⟨cacheSet st.cache k v now 300000, execExit o b1 now true⟩, .fresh v)
      | .error _ => (⟨st.cache, execExit o b1 now false⟩, .err .backend)

/-- `ConnectorFacade.get(objectClass, uid, options)` (lines 48-55): serve a
fresh cache entry under the projection-sensitive key directly; otherwise run
the impl through the breaker, caching a non-null result for 30 s. -/
def facadeGet (o : BreakerOpts) (st : FacadeSt V) (id oc uid : String)
    (attrs : Option (List String)) (now : Nat)
    (implRes : Except Unit (Option V)) : FacadeSt V × GetRes V :=
  let k := getKey id oc uid attrs
  match cacheGet st.cache k now with
  | some v => (st, .cached v)
  | none =>
    match execEnter o st.breaker now with
    | (b1, .rejectedOpen) => (⟨st.cache, b1⟩, .err .circuitOpen)
    | (b1, .rejectedBusy) => (⟨st.cache, b1⟩, .err .tooManyRequests)
    | (b1, .admitted) =>
      match implRes with
      | .ok (some v) => (⟨cacheSet st.cache k v now 30000, execExit o b1 now true⟩, .fresh v)
      | .ok none => (⟨st.cache, execExit o b1 now true⟩, .nullRes)
      | .error _ => (⟨st.cache, execExit o b1 now false⟩, .err .backend)

/-- `ConnectorFacade.update(objectClass, uid, attrs, options)` (lines 57-63):
run the impl through the breaker; on success invalidate every cache key
starting with the `["get", id, objectClass, uid]` prefix, then return. -/
def facadeUpdate (o : BreakerOpts) (st : FacadeSt V) (id oc uid : String) (now : Nat)
    (implRes : Except Unit V) : FacadeSt V × CallRes V :=
  match execEnter o st.breaker now with
  | (b1, .rejectedOpen) => (⟨st.cache, b1⟩, .err .circuitOpen)
  | (b1, .rejectedBusy) => (⟨st.cache, b1⟩, .err .tooManyRequests)
  | (b1, .admitted) =>
    match implRes with
    | .ok v =>
      (⟨invalidatePrefix st.cache (getInvalidationPrefixOf id oc uid),
        execExit o b1 now true⟩, .fresh v)
    | .error _ => (⟨st.cache, execExit o b1 now false⟩, .err .backend)

/-- `ConnectorFacade.addAttributeValues(objectClass, uid, add, options)`
(lines 73-76): run the impl through the breaker and return its result.  The
source performs NO cache invalidation here. -/
def facadeAddAttributeValues (o : BreakerOpts) (st : FacadeSt V)
    (_oc _uid : String) (now : Nat) (implRes : Except Unit V) : FacadeSt V × CallRes V :=
  match execEnter o st.breaker now with
  | (b1, .rejectedOpen) => (⟨st.cache, b1⟩, .err .circuitOpen)
  | (b1, .rejectedBusy) => (⟨st.cache, b1⟩, .err .tooManyRequests)
  | (b1, .admitted) =>
    match implRes with
    | .ok v => (⟨st.cache, execExit o b1 now true⟩, .fresh v)
    | .error _ => (⟨st.cache, execExit o b1 now false⟩, .err .backend)

/-- `ConnectorFacade.removeAttributeValues(objectClass, uid, remove,
options)` (lines 78-81): identical shape to `addAttributeValues`; no cache
invalidation. -/
def facadeRemoveAttributeValues (o : BreakerOpts) (st : FacadeSt V)
    (_oc _uid : String) (now : Nat) (implRes : Except Unit V) : FacadeSt V × CallRes V :=
  match execEnter o st.breaker now with
  | (b1, .rejectedOpen) => (⟨st.cache, b1⟩, .err .circuitOpen)
  | (b1, .rejectedBusy) => (⟨st.cache, b1⟩, .err .tooManyRequests)
  | (b1, .admitted) =>
    match implRes with
    | .ok v => (⟨st.cache, execExit o b1 now true⟩, .fresh v)
    | .error _ => (⟨st.cache, execExit o b1 now false⟩, .err .backend)

/-! ## Connector registry (src/core/ConnectorRegistry.ts, src/loader/types.ts) -/

/-- `toConnectorKey(type, version)` (src/loader/types.ts): `type@version`. -/
def toConnectorKey (ty ver : String) : String :=
  ty ++ "@" ++ ver

/-- The `@` character. -/
def atSign : Char := Char.ofNat 64

/-- Split a character list on a separator (JavaScript `String.prototype.split`
with a single-character separator). -/
def splitChars (sep : Char) : List Char → List (List Char)
  | [] => [[]]
  | c :: rest =>
    let r := splitChars sep rest
    if c = sep then [] :: r
    else
      match r with
      | h :: t => (c :: h) :: t
      | [] => [[c]]

/-- `s.split(sep)` for a one-character separator. -/
def jsSplit (s : String) (sep : Char) : List String :=
  (splitChars sep s.data).map String.mk

/-- `ConnectorRegistry.getVersions(type)` (lines 59-67): collect, for every
factory key (in registration order) starting with `type@`, the part after
`@`, then sort with the default `Array.prototype.sort()` — plain code-unit
lexicographic string order, NOT semantic-version order. -/
def getVersions (factoryKeys : List String) (ty : String) : List String :=
  jsSortStrings ((factoryKeys.filter (fun k => jsStartsWith k (ty ++ "@"))).map
    (fun k => (jsSplit k atSign).getD 1 ""))

/-- `ConnectorRegistry.getLatestVersion(type)` (lines 70-73): the last element
of `getVersions`, or none when no version is registered. -/
def getLatestVersion (factoryKeys : List String) (ty : String) : Option String :=
  (getVersions factoryKeys ty).getLast?

/-- Modelled from the spec: semantic-version precedence — numeric comparison
of major, then minor, then patch (so `1.2.0` precedes `1.10.0`).  Used only
to exhibit what semver-ascending order would be; the source under
`src/core/ConnectorRegistry.ts` never implements it (the repository test
`test/framework/connector-registry.test.ts` expects it via `semver.compare`). -/
def natListLt : List Nat → List Nat → Bool
  | [], [] => false
  | [], _ :: _ => true
  | _ :: _, [] => false
  | a :: as1, b :: bs1 =>
    if a < b then true
    else if b < a then false
    else natListLt as1 bs1

/-- Decimal value of a digit component (the components compared by the
spec-modelled semver order are plain digit strings). -/
def compToNat (s : String) : Nat :=
  s.data.foldl (fun acc c => acc * 10 + (c.toNat - 48)) 0

/-- Numeric dot-separated components of a version string. -/
def semverParts (s : String) : List Nat :=
  (jsSplit s (Char.ofNat 46)).map compToNat

/-- Modelled from the spec: `a` strictly precedes `b` in semver order. -/
def semverLt (a b : String) : Bool :=
  natListLt (semverParts a) (semverParts b)

/-! ## External loader (src/loader/ExternalLoader.ts) -/

/-- Raw configuration values as parsed from `manifest.json` (JSON values). -/
inductive CVal
  | vstr (s : String)
  | vnum (n : Int)
  | vbool (b : Bool)
  | vnull
  | varr (xs : List CVal)
  | vobj (fields : List (String × CVal))
deriving Repr

/-- Opening and closing braces. -/
def lbrace : Char := Char.ofNat 123

/-- The closing brace. -/
def rbrace : Char := Char.ofNat 125

/-- The literal text `${name}` as it appears in a manifest config value. -/
def envRef (name : String) : String :=
  "$" ++ String.mk [lbrace] ++ name ++ String.mk [rbrace]

/-- A character allowed inside an environment reference: `[A-Z0-9_]`. -/
def isEnvChar (c : Char) : Bool :=
  c.isUpper || c.isDigit || c = Char.ofNat 95

/-- The test (lines 20-21) of `resolveEnvStrings` against the regular
expression `^\$\x7b[A-Z0-9_]+\x7d$`: the captured environment-variable
name, if the whole string is such a reference. -/
def envRefName (s : String) : Option String :=
  match s.data with
  | c1 :: c2 :: rest =>
    if c1 = Char.ofNat 36 ∧ c2 = lbrace ∧ rest.getLast? = some rbrace
        ∧ rest.dropLast ≠ [] ∧ rest.dropLast.all isEnvChar then
      some (String.mk rest.dropLast)
    else none
  | _ => none

mutual
/-- `resolveEnvStrings(val)` (src/loader/ExternalLoader.ts lines 18-40):
replace every string of the exact form `${NAME}` by the value of the
environment variable `NAME`, recursing through arrays and objects; a missing
variable throws `Missing environment variable NAME`. -/
def resolveEnvStrings (env : List (String × String)) (v : CVal) : Except String CVal :=
  match v with
  | .vstr s =>
    match envRefName s with
    | some name =>
      match List.lookup name env with
      | some rep => .ok (.vstr rep)
      | none => .error ("Missing environment variable " ++ name)
    | none => .ok (.vstr s)
  | .varr xs =>
    match resolveEnvList env xs with
    | .ok ys => .ok (.varr ys)
    | .error e => .error e
  | .vobj fs =>
    match resolveEnvFields env fs with
    | .ok gs => .ok (.vobj gs)
    | .error e => .error e
  | .vnum n => .ok (.vnum n)
  | .vbool b => .ok (.vbool b)
  | .vnull => .ok .vnull
termination_by sizeOf v

/-- Elementwise resolution of an array value (`val.map(resolveEnvStrings)`). -/
def resolveEnvList (env : List (String × String)) (xs : List CVal) :
    Except String (List CVal) :=
  match xs with
  | [] => .ok []
  | x :: rest =>
    match resolveEnvStrings env x with
    | .error e => .error e
    | .ok y =>
      match resolveEnvList env rest with
      | .error e => .error e
      | .ok ys => .ok (y :: ys)
termination_by sizeOf xs

/-- Fieldwise resolution of an object value (the `Object.entries` loop). -/
def resolveEnvFields (env : List (String × String)) (fs : List (String × CVal)) :
    Except String (List (String × CVal)) :=
  match fs with
  | [] => .ok []
  | (k, x) :: rest =>
    match resolveEnvStrings env x with
    | .error e => .error e
    | .ok y =>
      match resolveEnvFields env rest with
      | .error e => .error e
      | .ok gs => .ok ((k, y) :: gs)
termination_by sizeOf fs
end

/-- The JavaScript object spread `\x7b ...base, ...inst \x7d`: keys of
`base` in order, values overridden by `inst` where present, followed by the
keys only `inst` has. -/
def mergeShallow (base inst : List (String × CVal)) : List (String × CVal) :=
  base.map (fun p =>
    match List.lookup p.1 inst with
    | some v => (p.1, v)
    | none => p)
  ++ inst.filter (fun p => (List.lookup p.1 base).isNone)

/-- The per-instance configuration computation of `loadExternalConnectors`
(src/loader/ExternalLoader.ts lines 132-141): merge base over instance
config, call `resolveEnvStrings` on the merge (a missing variable throws and
the instance is not initialized), then build the effective configuration from
`mergedRaw` — the UNRESOLVED merge — and hand it to `initInstance`.  The
resolved value `mergedCfg` is computed but never used. -/
def loadInstanceConfig (env : List (String × String))
    (baseCfg instCfg : List (String × CVal))
    (build : Option (CVal → CVal)) : Except String CVal :=
  let merged := mergeShallow baseCfg instCfg
  match resolveEnvStrings env (.vobj merged) with
  | .error e => .error e
  | .ok _mergedCfg =>
    let mergedRaw := CVal.vobj merged
    .ok (match build with
         | some f => f mergedRaw
         | none => mergedRaw)

/-! ## Filter AST (src/filter/ast.ts) -/

/-- The ten comparison operators of the filter AST. -/
inductive FOp
  | EQ
  | CONTAINS
  | STARTS_WITH
  | ENDS_WITH
  | GT
  | GTE
  | LT
  | LTE
  | IN
  | EXISTS
deriving DecidableEq, Repr

/-- Printable operator name (used in source error messages). -/
def FOp.name : FOp → String
  | .EQ => "EQ"
  | .CONTAINS => "CONTAINS"
  | .STARTS_WITH => "STARTS_WITH"
  | .ENDS_WITH => "ENDS_WITH"
  | .GT => "GT"
  | .GTE => "GTE"
  | .LT => "LT"
  | .LTE => "LTE"
  | .IN => "IN"
  | .EXISTS => "EXISTS"

/-- Primitive comparison values of ast.ts: `string | number | boolean`.
Numbers are modeled as integers: no filter code branches on fractional
values. -/
inductive Prim
  | pstr (s : String)
  | pnum (n : Int)
  | pbool (b : Bool)
deriving DecidableEq, Repr

/-- The optional `value` of a comparison: a primitive or an array of
primitives (`Array<string | number>` in ast.ts). -/
inductive FValue
  | prim (p : Prim)
  | arr (xs : List Prim)
deriving DecidableEq, Repr

/-- The filter AST node (`Node` of src/filter/ast.ts). -/
inductive FNode
  | cmp (op : FOp) (path : List String) (value : Option FValue)
  | andN (nodes : List FNode)
  | orN (nodes : List FNode)
  | notN (n : FNode)
deriving Repr

/-- `Array.prototype.join(sep)`. -/
def joinSep (sep : String) : List String → String
  | [] => ""
  | [x] => x
  | x :: y :: ys => x ++ sep ++ joinSep sep (y :: ys)

/-- JavaScript `String()` of a primitive. -/
def Prim.jsString : Prim → String
  | .pstr s => s
  | .pnum n => toString n
  | .pbool b => if b then "true" else "false"

/-- JavaScript template interpolation of the possibly-absent `n.value`
(`undefined` prints as "undefined"; an array joins its elements with `,`). -/
def jsShow : Option FValue → String
  | none => "undefined"
  | some (.prim p) => p.jsString
  | some (.arr xs) => joinSep "," (xs.map Prim.jsString)

/-! ## SQL translator (`toSql`, src/filter dist module unnamed/part_002) -/

/-- A character allowed inside a column identifier: `[A-Za-z0-9_]`. -/
def isColChar (c : Char) : Bool :=
  c.isAlpha || c.isDigit || c = Char.ofNat 95

/-- After the opening quote: one or more column characters followed by the
closing double quote and nothing else. -/
def safeColTail : List Char → Bool
  | [] => false
  | [_] => false
  | [c, d] => isColChar c && d == dq
  | c :: rest => isColChar c && safeColTail rest

/-- The column-safety regular expression of `toSql`:
`^"[A-Za-z0-9_]+"$`. -/
def safeCol (c : String) : Bool :=
  match c.data with
  | [] => false
  | ch :: rest => ch == dq && safeColTail rest

/-- `colFor(path)` (toSql lines 28-34): look the dotted path up in the
column map and check the mapped column against the safety regex. -/
def colFor (colMap : List (String × String)) (path : List String) : Except String String :=
  let key := joinSep "." path
  match List.lookup key colMap with
  | none => .error ("Unsupported filter path: " ++ key)
  | some col => if safeCol col then .ok col else .error "Unsafe column mapping"

/-- The decimal digit characters. -/
def digitChar : Nat → Char
  | 0 => Char.ofNat 48
  | 1 => Char.ofNat 49
  | 2 => Char.ofNat 50
  | 3 => Char.ofNat 51
  | 4 => Char.ofNat 52
  | 5 => Char.ofNat 53
  | 6 => Char.ofNat 54
  | 7 => Char.ofNat 55
  | 8 => Char.ofNat 56
  | _ => Char.ofNat 57

/-- Decimal rendering of a natural number (the JavaScript template
`$\x7bidx\x7d` renders the placeholder index in decimal). -/
def natToChars (n : Nat) : List Char :=
  if n < 10 then [digitChar n]
  else natToChars (n / 10) ++ [digitChar (n % 10)]

/-- Decimal rendering as a string. -/
def natToStr (n : Nat) : String := String.mk (natToChars n)

/-- The operator token and the pushed parameter of the scalar branch of the
`CMP` case (toSql lines 46-60): `LIKE` operators wrap the interpolated value
in `%`; `IN` reaching this branch (a non-array value) and any other leftover
operator throw `Unsupported op`. -/
def scalarOpSql (op : FOp) (value : Option FValue) :
    Except String (String × Option FValue) :=
  match op with
  | .EQ => .ok ("=", value)
  | .GT => .ok (">", value)
  | .GTE => .ok (">=", value)
  | .LT => .ok ("<", value)
  | .LTE => .ok ("<=", value)
  | .CONTAINS => .ok ("LIKE", some (.prim (.pstr ("%" ++ jsShow value ++ "%"))))
  | .STARTS_WITH => .ok ("LIKE", some (.prim (.pstr (jsShow value ++ "%"))))
  | .ENDS_WITH => .ok ("LIKE", some (.prim (.pstr ("%" ++ jsShow value))))
  | op1 => .error ("Unsupported op " ++ op1.name)

mutual
/-- The recursive `walk` of `toSql`: returns the SQL fragment, the parameters
pushed by this subtree (in push order), and the next placeholder index.  The
source mutates a shared `params` array and `idx` counter; threading them
through the recursion is observationally identical because `walk` visits
children left to right. -/
def sqlWalk (colMap : List (String × String)) (n : FNode) (idx : Nat) :
    Except String (String × List (Option FValue) × Nat) :=
  match n with
  | .cmp op path value =>
    match colFor colMap path with
    | .error e => .error e
    | .ok col =>
      if op = .EXISTS then .ok (col ++ " IS NOT NULL", [], idx)
      else
        match op, value with
        | .IN, some (.arr xs) =>
          .ok (col ++ " = ANY(ARRAY["
                ++ joinSep "," ((List.range xs.length).map
                      (fun j => "$" ++ natToStr (idx + j)))
                ++ "])",
               xs.map (fun x => some (FValue.prim x)), idx + xs.length)
        | _, _ =>
          match scalarOpSql op value with
          | .error e => .error e
          | .ok (opStr, v) =>
            .ok (col ++ " " ++ opStr ++ " " ++ ("$" ++ natToStr idx), [v], idx + 1)
  | .andN ns =>
    match sqlWalkList colMap ns idx with
    | .error e => .error e
    | .ok (parts, ps, i) => .ok ("(" ++ joinSep " AND " parts ++ ")", ps, i)
  | .orN ns =>
    match sqlWalkList colMap ns idx with
    | .error e => .error e
    | .ok (parts, ps, i) => .ok ("(" ++ joinSep " OR " parts ++ ")", ps, i)
  | .notN m =>
    match sqlWalk colMap m idx with
    | .error e => .error e
    | .ok (s, ps, i) => .ok ("(NOT " ++ s ++ ")", ps, i)
termination_by sizeOf n

/-- Left-to-right translation of the children of `AND`/`OR`. -/
def sqlWalkList (colMap : List (String × String)) (ns : List FNode) (idx : Nat) :
    Except String (List String × List (Option FValue) × Nat) :=
  match ns with
  | [] => .ok ([], [], idx)
  | x :: rest =>
    match sqlWalk colMap x idx with
    | .error e => .error e
    | .ok (s, ps, i) =>
      match sqlWalkList colMap rest i with
      | .error e => .error e
      | .ok (ss, ps2, i2) => .ok (s :: ss, ps ++ ps2, i2)
termination_by sizeOf ns
end

/-- `toSql(node, map, startIndex)`: the translator entry point, returning
`{sql, params, next}` or throwing. -/
def toSql (n : FNode) (colMap : List (String × String)) (startIndex : Nat) :
    Except String (String × List (Option FValue) × Nat) :=
  sqlWalk colMap n startIndex

/-- Number of `$` characters in a string. -/
def countDollar (s : String) : Nat :=
  s.data.countP (fun c => c == Char.ofNat 36)

mutual
/-- Every comparison path of the tree is mapped to a safe column. -/
def pathsOk (colMap : List (String × String)) : FNode → Bool
  | .cmp _ path _ => (colFor colMap path).isOk
  | .andN ns => pathsOkList colMap ns
  | .orN ns => pathsOkList colMap ns
  | .notN m => pathsOk colMap m
termination_by n => sizeOf n

/-- `pathsOk` over a child list. -/
def pathsOkList (colMap : List (String × String)) : List FNode → Bool
  | [] => true
  | x :: rest => pathsOk colMap x && pathsOkList colMap rest
termination_by ns => sizeOf ns
end

/-- The path bounds of the validated AST shape (spec section 3): 1..8
non-empty segments of at most 128 characters. -/
def pathOkB (path : List String) : Bool :=
  decide (1 ≤ path.length) && decide (path.length ≤ 8)
    && path.all (fun s => decide (1 ≤ s.length) && decide (s.length ≤ 128))

mutual
/-- The validated AST shape of spec section 3: a `CMP` has `value` absent
exactly for `EXISTS`, an array of 1..100 primitives exactly for `IN`, and a
primitive otherwise; `AND`/`OR` carry 1..50 valid children. -/
def validNode : FNode → Bool
  | .cmp op path value =>
    pathOkB path &&
    (match op, value with
     | .EXISTS, none => true
     | .EXISTS, some _ => false
     | .IN, some (.arr xs) => decide (1 ≤ xs.length) && decide (xs.length ≤ 100)
     | .IN, _ => false
     | _, some (.prim _) => true
     | _, _ => false)
  | .andN ns => decide (1 ≤ ns.length) && decide (ns.length ≤ 50) && validNodeList ns
  | .orN ns => decide (1 ≤ ns.length) && decide (ns.length ≤ 50) && validNodeList ns
  | .notN m => validNode m
termination_by n => sizeOf n

/-- `validNode` over a child list. -/
def validNodeList : List FNode → Bool
  | [] => true
  | x :: rest => validNode x && validNodeList rest
termination_by ns => sizeOf ns
end

/-! ## OData query-string translator (`astToOData`, unnamed/part_001) -/

/-- The operator subset of the Graph connector AST (part_001 lines 195-199). -/
inductive OOp
  | EQ
  | CONTAINS
  | STARTS_WITH
  | ENDS_WITH
deriving DecidableEq, Repr

/-- The Graph connector AST node: a comparison (with a required primitive
value), or a boolean combination. -/
inductive ONode
  | cmp (op : OOp) (path : List String) (value : Prim)
  | andN (nodes : List ONode)
  | orN (nodes : List ONode)
  | notN (n : ONode)
deriving Repr

/-- The single-quote character. -/
def sq : Char := Char.ofNat 39

/-- `s.replace(/\x27/g, "\x27\x27")`: double every embedded single quote. -/
def doubleQuotes (s : String) : String :=
  String.mk (s.data.foldr (fun c acc => if c = sq then sq :: sq :: acc else c :: acc) [])

/-- `esc` (part_001 line 208): single-quote the value, doubling embedded
quotes. -/
def escO (s : String) : String :=
  String.mk [sq] ++ doubleQuotes s ++ String.mk [sq]

/-- `field(path)` (part_001 lines 202-207): exactly one segment, which must
be in the per-call allow set. -/
def odField (allowed : List String) (path : List String) : Except String String :=
  match path with
  | [f] =>
    if allowed.contains f then .ok f
    else .error ("Filtering not allowed on " ++ String.mk [sq] ++ f ++ String.mk [sq])
  | _ => .error "Nested filters not supported for Graph yet"

/-- Rendered right-hand side of a comparison: strings are quote-escaped,
numbers and booleans print bare (part_001 line 214). -/
def odValue : Prim → String
  | .pstr s => escO s
  | p => p.jsString

mutual
/-- The recursive `walk` of `astToOData` (part_001 lines 210-226). -/
def odWalk (allowed : List String) (n : ONode) : Except String String :=
  match n with
  | .cmp op path value =>
    match odField allowed path with
    | .error e => .error e
    | .ok f =>
      let v := odValue value
      match op with
      | .EQ => .ok (f ++ " eq " ++ v)
      | .CONTAINS => .ok ("contains(" ++ f ++ ", " ++ v ++ ")")
      | .STARTS_WITH => .ok ("startswith(" ++ f ++ ", " ++ v ++ ")")
      | .ENDS_WITH => .ok ("endswith(" ++ f ++ ", " ++ v ++ ")")
  | .andN ns =>
    match odWalkList allowed ns with
    | .error e => .error e
    | .ok parts => .ok ("(" ++ joinSep " and " parts ++ ")")
  | .orN ns =>
    match odWalkList allowed ns with
    | .error e => .error e
    | .ok parts => .ok ("(" ++ joinSep " or " parts ++ ")")
  | .notN m =>
    match odWalk allowed m with
    | .error e => .error e
    | .ok s => .ok ("(not " ++ s ++ ")")
termination_by sizeOf n

/-- Children of `and`/`or`, left to right. -/
def odWalkList (allowed : List String) (ns : List ONode) : Except String (List String) :=
  match ns with
  | [] => .ok []
  | x :: rest =>
    match odWalk allowed x with
    | .error e => .error e
    | .ok s =>
      match odWalkList allowed rest with
      | .error e => .error e
      | .ok ss => .ok (s :: ss)
termination_by sizeOf ns
end

/-- `astToOData(node, allowed)` (part_001 lines 201-228). -/
def astToOData (n : ONode) (allowed : List String) : Except String String :=
  odWalk allowed n

/-- Scans a character list insisting that every single quote is immediately
followed by a second one (quotes only occur doubled). -/
def noLoneQuote : List Char → Bool
  | [] => true
  | c :: rest =>
    if c = sq then
      match rest with
      | d :: rest2 => if d = sq then noLoneQuote rest2 else false
      | [] => false
    else noLoneQuote rest

/-! ## Filter parsing (`parseFilter`, Zod schema of unnamed/part_001 lines
665-694) -/

/-- JSON values as delivered to `parseFilter` (the untrusted input after
`JSON.parse`).  Numbers are modeled as integers: the schema never constrains
a numeric value, so fractional parts cannot influence acceptance. -/
inductive Json
  | jnull
  | jbool (b : Bool)
  | jnum (n : Int)
  | jstr (s : String)
  | jarr (xs : List Json)
  | jobj (fields : List (String × Json))
deriving Repr

/-- Termination measure fact: a field value found by `List.lookup` is
smaller than the field list. -/
theorem lookupJson_sizeOf {fs : List (String × Json)} {k : String} {v : Json}
    (h : List.lookup k fs = some v) : sizeOf v < sizeOf fs := by
  induction fs with
  | nil => simp [List.lookup] at h
  | cons p t ih =>
    obtain ⟨a, b⟩ := p
    simp only [List.lookup] at h
    split at h
    · cases h
      simp
      omega
    · have := ih h
      simp
      omega

/-- `z.enum([...])` over the ten operator names, mapping to `FOp`. -/
def opOfString (s : String) : Option FOp :=
  if s = "EQ" then some .EQ
  else if s = "CONTAINS" then some .CONTAINS
  else if s = "STARTS_WITH" then some .STARTS_WITH
  else if s = "ENDS_WITH" then some .ENDS_WITH
  else if s = "GT" then some .GT
  else if s = "GTE" then some .GTE
  else if s = "LT" then some .LT
  else if s = "LTE" then some .LTE
  else if s = "IN" then some .IN
  else if s = "EXISTS" then some .EXISTS
  else none

/-- The `op` field parser: a string naming one of the ten operators. -/
def parseOp (j : Json) : Option FOp :=
  match j with
  | .jstr s => opOfString s
  | _ => none

/-- `z.string().min(1).max(128)`: one path segment. -/
def parseSeg (j : Json) : Option String :=
  match j with
  | .jstr s => if 1 ≤ s.length ∧ s.length ≤ 128 then some s else none
  | _ => none

/-- Elementwise segment parsing of the `path` array. -/
def parseSegs : List Json → Option (List String)
  | [] => some []
  | x :: rest =>
    match parseSeg x with
    | none => none
    | some s =>
      match parseSegs rest with
      | none => none
      | some ss => some (s :: ss)

/-- `PathSchema = z.array(segment).min(1).max(8)`. -/
def parsePath (j : Json) : Option (List String) :=
  match j with
  | .jarr xs =>
    if 1 ≤ xs.length ∧ xs.length ≤ 8 then parseSegs xs else none
  | _ => none

/-- `z.union([z.string(), z.number()])`: an `IN`-array element. -/
def parsePrimSN (j : Json) : Option Prim :=
  match j with
  | .jstr s => some (.pstr s)
  | .jnum n => some (.pnum n)
  | _ => none

/-- Elementwise parsing of a value array. -/
def parsePrims : List Json → Option (List Prim)
  | [] => some []
  | x :: rest =>
    match parsePrimSN x with
    | none => none
    | some p =>
      match parsePrims rest with
      | none => none
      | some ps => some (p :: ps)

/-- The `value` union of `CmpSchema`: string, number, boolean, or an array
of 1..100 strings-or-numbers. -/
def parseValue (j : Json) : Option FValue :=
  match j with
  | .jstr s => some (.prim (.pstr s))
  | .jnum n => some (.prim (.pnum n))
  | .jbool b => some (.prim (.pbool b))
  | .jarr xs =>
    if 1 ≤ xs.length ∧ xs.length ≤ 100 then
      match parsePrims xs with
      | some ps => some (.arr ps)
      | none => none
    else none
  | _ => none

/-- `CmpSchema` applied to the fields of an object whose `type` is `CMP`: the
`op`, `path` and optional `value` fields must parse, and the refinement
requires `value` to be absent exactly when `op` is `EXISTS`.  Unknown keys
are ignored (`z.object` strips them). -/
def parseCmpFields (fields : List (String × Json)) : Option FNode :=
  match List.lookup "op" fields with
  | none => none
  | some jop =>
    match parseOp jop with
    | none => none
    | some op =>
      match List.lookup "path" fields with
      | none => none
      | some jpath =>
        match parsePath jpath with
        | none => none
        | some path =>
          match List.lookup "value" fields with
          | none => if op = .EXISTS then some (.cmp op path none) else none
          | some jv =>
            match parseValue jv with
            | none => none
            | some v =>
              if op = .EXISTS then none else some (.cmp op path (some v))

mutual
/-- `parseFilter(input) = NodeSchema.parse(input)` (unnamed/part_001 lines
685-694): the lazy union of `CmpSchema` and the `AND`/`OR`/`NOT` object
schemas.  Each union branch requires its `type` literal, so dispatching on
the `type` field is equivalent to trying the branches in order.  `none`
models a thrown `ZodError` (`ValidationFailed`). -/
def parseFilter (j : Json) : Option FNode :=
  match j with
  | .jobj fields =>
    match h : List.lookup "type" fields with
    | some (.jstr "CMP") => parseCmpFields fields
    | some (.jstr "AND") =>
      (match h2 : List.lookup "nodes" fields with
       | some (.jarr xs) =>
         if 1 ≤ xs.length ∧ xs.length ≤ 50 then
           match parseNodeList xs with
           | some ns => some (.andN ns)
           | none => none
         else none
       | _ => none)
    | some (.jstr "OR") =>
      (match h2 : List.lookup "nodes" fields with
       | some (.jarr xs) =>
         if 1 ≤ xs.length ∧ xs.length ≤ 50 then
           match parseNodeList xs with
           | some ns => some (.orN ns)
           | none => none
         else none
       | _ => none)
    | some (.jstr "NOT") =>
      (match h2 : List.lookup "node" fields with
       | some x =>
         (match parseFilter x with
          | some m => some (.notN m)
          | none => none)
       | none => none)
    | _ => none
  | _ => none
termination_by sizeOf j
decreasing_by
  · have h1 := lookupJson_sizeOf h2
    simp at h1 ⊢
    omega
  · have h1 := lookupJson_sizeOf h2
    simp at h1 ⊢
    omega
  · have h1 := lookupJson_sizeOf h2
    simp at h1 ⊢
    omega

/-- Elementwise parsing of the children of `AND`/`OR`. -/
def parseNodeList (xs : List Json) : Option (List FNode) :=
  match xs with
  | [] => some []
  | x :: rest =>
    match parseFilter x with
    | none => none
    | some n =>
      match parseNodeList rest with
      | none => none
      | some ns => some (n :: ns)
termination_by sizeOf xs
end

/-- Modelled from the claim: the ten listed operator names. -/
def opNames : List String :=
  ["EQ", "CONTAINS", "STARTS_WITH", "ENDS_WITH", "GT", "GTE", "LT", "LTE",
   "IN", "EXISTS"]

/-- Modelled from the claim: a path segment is a non-empty string of at most
128 characters. -/
def segOK (j : Json) : Bool :=
  match j with
  | .jstr s => decide (1 ≤ s.length) && decide (s.length ≤ 128)
  | _ => false

/-- Modelled from the claim: a present `value` must be a string, number,
boolean, or an array of 1..100 strings-or-numbers. -/
def valueOK (j : Json) : Bool :=
  match j with
  | .jstr _ => true
  | .jnum _ => true
  | .jbool _ => true
  | .jarr xs =>
    decide (1 ≤ xs.length) && decide (xs.length ≤ 100)
      && xs.all (fun x =>
           match x with
           | .jstr _ => true
           | .jnum _ => true
           | _ => false)
  | _ => false

/-- Modelled from the claim: the shape rules of a `CMP` object — a listed
operator name, a path of 1..8 conforming segments, and a `value` present
exactly when the operator is not `EXISTS`, conforming to the value union. -/
def cmpShapeOK (fields : List (String × Json)) : Bool :=
  (match List.lookup "op" fields with
   | some (.jstr t) => opNames.contains t
   | _ => false) &&
  (match List.lookup "path" fields with
   | some (.jarr segs) =>
     decide (1 ≤ segs.length) && decide (segs.length ≤ 8) && segs.all segOK
   | _ => false) &&
  (match List.lookup "op" fields, List.lookup "value" fields with
   | some (.jstr t), none => t == "EXISTS"
   | some (.jstr t), some v => (t != "EXISTS") && valueOK v
   | _, _ => false)

mutual
/-- Modelled from the claim (the amended shape rules): a tree is accepted
exactly when every node is an object tagged `CMP`/`AND`/`OR`/`NOT`, every
`CMP` satisfies `cmpShapeOK`, every `AND`/`OR` carries 1..50 conforming
children under `nodes`, and every `NOT` carries one conforming child under
`node`. -/
def shapeOK (j : Json) : Bool :=
  match j with
  | .jobj fields =>
    match h : List.lookup "type" fields with
    | some (.jstr "CMP") => cmpShapeOK fields
    | some (.jstr "AND") =>
      (match h2 : List.lookup "nodes" fields with
       | some (.jarr xs) =>
         decide (1 ≤ xs.length) && decide (xs.length ≤ 50) && shapeOKList xs
       | _ => false)
    | some (.jstr "OR") =>
      (match h2 : List.lookup "nodes" fields with
       | some (.jarr xs) =>
         decide (1 ≤ xs.length) && decide (xs.length ≤ 50) && shapeOKList xs
       | _ => false)
    | some (.jstr "NOT") =>
      (match h2 : List.lookup "node" fields with
       | some x => shapeOK x
       | none => false)
    | _ => false
  | _ => false
termination_by sizeOf j
decreasing_by
  · have h1 := lookupJson_sizeOf h2
    simp at h1 ⊢
    omega
  · have h1 := lookupJson_sizeOf h2
    simp at h1 ⊢
    omega
  · have h1 := lookupJson_sizeOf h2
    simp at h1 ⊢
    omega

/-- `shapeOK` over a child list. -/
def shapeOKList (xs : List Json) : Bool :=
  match xs with
  | [] => true
  | x :: rest => shapeOK x && shapeOKList rest
termination_by sizeOf xs
end

/-! ### Claims C1 and C7 -/

/-- C1 (amended): state-machine behavior of `CircuitBreaker.exec`.  Starting
from an arbitrary breaker `b` with options `o`, for a call at time `now` that
is not rejected by the concurrency cap:
CLOSED: a success resets `failures` to 0; a failure increments `failures`,
and the `failureThreshold`-th consecutive failure opens the breaker recording
`openedAt = now`.  OPEN: while at most `halfOpenAfterMs` has elapsed since
`openedAt`, the call throws `CircuitOpen` without the supplied function being
invoked (`exec` returns outcome `circuitOpen` and an unchanged breaker); once
strictly more than `halfOpenAfterMs` has elapsed, the call is admitted with
the breaker moved to HALF and both counters reset.  HALF: a success that
reaches `successThreshold` closes the breaker, an earlier success just
accumulates, and any failure re-opens it recording `openedAt = now`. -/
theorem circuitBreaker_state_machine (o : Host.BreakerOpts) (b : Host.Breaker) (now : Nat) :
    (b.state = .CLOSED → b.inflight < o.maxConcurrent →
      (Host.exec o b now true).1.state = .CLOSED ∧
      (Host.exec o b now true).1.failures = 0 ∧
      (Host.exec o b now true).2 = .ran true) ∧
    (b.state = .CLOSED → b.inflight < o.maxConcurrent → b.failures + 1 < o.failureThreshold →
      (Host.exec o b now false).1.state = .CLOSED ∧
      (Host.exec o b now false).1.failures = b.failures + 1) ∧
    (b.state = .CLOSED → b.inflight < o.maxConcurrent → o.failureThreshold ≤ b.failures + 1 →
      (Host.exec o b now false).1.state = .OPEN ∧
      (Host.exec o b now false).1.openedAt = now) ∧
    (∀ fnOk, b.state = .OPEN → now - b.openedAt ≤ o.halfOpenAfterMs →
      Host.exec o b now fnOk = (b, .circuitOpen)) ∧
    (b.state = .OPEN → o.halfOpenAfterMs < now - b.openedAt → b.inflight < o.maxConcurrent →
      (Host.execEnter o b now).2 = .admitted ∧
      (Host.execEnter o b now).1.state = .HALF ∧
      (Host.execEnter o b now).1.failures = 0 ∧
      (Host.execEnter o b now).1.successes = 0) ∧
    (b.state = .HALF → b.inflight < o.maxConcurrent → o.successThreshold ≤ b.successes + 1 →
      (Host.exec o b now true).1.state = .CLOSED ∧
      (Host.exec o b now true).1.failures = 0 ∧
      (Host.exec o b now true).1.successes = 0) ∧
    (b.state = .HALF → b.inflight < o.maxConcurrent → b.successes + 1 < o.successThreshold →
      (Host.exec o b now true).1.state = .HALF ∧
      (Host.exec o b now true).1.successes = b.successes + 1) ∧
    (b.state = .HALF → b.inflight < o.maxConcurrent →
      (Host.exec o b now false).1.state = .OPEN ∧
      (Host.exec o b now false).1.openedAt = now) := by
  refine ⟨?_, ?_, ?_, ?_, ?_, ?_, ?_, ?_⟩
  · intro h1 h2
    simp [Host.exec, Host.execEnter, Host.halfOpenCheck, Host.execExit, Host.onSuccess,
          Host.onFailure, Host.Breaker.toOpen, Host.Breaker.toClosed, h1, Nat.not_le.mpr h2]
  · intro h1 h2 h3
    simp [Host.exec, Host.execEnter, Host.halfOpenCheck, Host.execExit, Host.onSuccess,
          Host.onFailure, Host.Breaker.toOpen, Host.Breaker.toClosed, h1,
          Nat.not_le.mpr h2, Nat.not_le.mpr h3]
  · intro h1 h2 h3
    simp [Host.exec, Host.execEnter, Host.halfOpenCheck, Host.execExit, Host.onSuccess,
          Host.onFailure, Host.Breaker.toOpen, Host.Breaker.toClosed, h1,
          Nat.not_le.mpr h2, h3]
  · intro fnOk h1 h2
    simp [Host.exec, Host.execEnter, Host.halfOpenCheck, Host.execExit, Host.onSuccess,
          Host.onFailure, Host.Breaker.toOpen, Host.Breaker.toClosed, h1, Nat.not_lt.mpr h2]
  · intro h1 h2 h3
    simp [Host.execEnter, Host.halfOpenCheck, h1, h2, Nat.not_le.mpr h3]
  · intro h1 h2 h3
    simp [Host.exec, Host.execEnter, Host.halfOpenCheck, Host.execExit, Host.onSuccess,
          Host.onFailure, Host.Breaker.toOpen, Host.Breaker.toClosed, h1,
          Nat.not_le.mpr h2, h3]
  · intro h1 h2 h3
    simp [Host.exec, Host.execEnter, Host.halfOpenCheck, Host.execExit, Host.onSuccess,
          Host.onFailure, Host.Breaker.toOpen, Host.Breaker.toClosed, h1,
          Nat.not_le.mpr h2, Nat.not_le.mpr h3]
  · intro h1 h2
    simp [Host.exec, Host.execEnter, Host.halfOpenCheck, Host.execExit, Host.onSuccess,
          Host.onFailure, Host.Breaker.toOpen, Host.Breaker.toClosed, h1, Nat.not_le.mpr h2]

/-- Witness for C1 at concrete inputs: with the default options, the fifth
consecutive failure opens a CLOSED breaker at the call time. -/
theorem circuitBreaker_state_machine_witness :
    (Host.exec Host.defaultBreakerOpts ⟨.CLOSED, 4, 0, 0, 0⟩ 77 false).1.state = .OPEN ∧
    (Host.exec Host.defaultBreakerOpts ⟨.CLOSED, 4, 0, 0, 0⟩ 77 false).1.openedAt = 77 :=
  (circuitBreaker_state_machine Host.defaultBreakerOpts ⟨.CLOSED, 4, 0, 0, 0⟩ 77).2.2.1
    (by decide) (by decide) (by decide)

/-- Counterexample to C1 as stated: with `halfOpenAfterMs = 1000` and
`openedAt = 0`, at `now = 1000` the delay has elapsed (exactly), yet the next
call does not transition to HALF_OPEN and is not allowed to run: the source
requires strictly more than `halfOpenAfterMs` (`now - openedAt >
halfOpenAfterMs`), so the call still throws `CircuitOpen`. -/
theorem circuitBreaker_boundary_cex :
    Host.exec ⟨2, 1, 1000, 2, 5000⟩ ⟨.OPEN, 2, 0, 0, 0⟩ 1000 true
      = (⟨.OPEN, 2, 0, 0, 0⟩, .circuitOpen) := by decide

/-- Neither branch of `onSuccess` touches `inflight`. -/
theorem onSuccess_inflight (o : Host.BreakerOpts) (b : Host.Breaker) :
    (Host.onSuccess o b).inflight = b.inflight := by
  simp only [Host.onSuccess, Host.Breaker.toClosed]
  split
  · split <;> rfl
  · rfl

/-- Neither branch of `onFailure` touches `inflight`. -/
theorem onFailure_inflight (o : Host.BreakerOpts) (b : Host.Breaker) (now : Nat) :
    (Host.onFailure o b now).inflight = b.inflight := by
  simp only [Host.onFailure, Host.Breaker.toOpen]
  split
  · rfl
  · split <;> rfl

/-- The exit path of `exec` always decrements `inflight` by one. -/
theorem execExit_inflight (o : Host.BreakerOpts) (b : Host.Breaker) (now : Nat) (ok : Bool) :
    (Host.execExit o b now ok).inflight = b.inflight - 1 := by
  cases ok <;>
    simp [Host.execExit, onSuccess_inflight, onFailure_inflight]

/-- `halfOpenCheck` never touches `inflight`. -/
theorem halfOpenCheck_inflight (o : Host.BreakerOpts) (b : Host.Breaker) (now : Nat) :
    (Host.halfOpenCheck o b now).inflight = b.inflight := by
  unfold Host.halfOpenCheck
  split <;> rfl

/-- A call is admitted exactly when, after the half-open transition, the
breaker is not OPEN and `inflight` is below the cap. -/
theorem execEnter_admitted_iff (o : Host.BreakerOpts) (b : Host.Breaker) (now : Nat) :
    (Host.execEnter o b now).2 = .admitted ↔
      (Host.halfOpenCheck o b now).state ≠ .OPEN ∧
      (Host.halfOpenCheck o b now).inflight < o.maxConcurrent := by
  simp only [Host.execEnter]
  split
  · next h => simp [h]
  · next h =>
    split
    · next h2 => simp [h, h2, Nat.not_le.mp, Nat.not_lt.mpr h2]
    · next h2 => simp [h, Nat.not_le.mp h2]

/-- Value of `execEnter` on an admitted call. -/
theorem execEnter_admitted_eq (o : Host.BreakerOpts) (b : Host.Breaker) (now : Nat)
    (hs : (Host.halfOpenCheck o b now).state ≠ .OPEN)
    (hc : (Host.halfOpenCheck o b now).inflight < o.maxConcurrent) :
    Host.execEnter o b now
      = ({ Host.halfOpenCheck o b now with
            inflight := (Host.halfOpenCheck o b now).inflight + 1 }, .admitted) := by
  simp only [Host.execEnter]
  simp [hs, Nat.not_le.mpr hc]

/-- C7 (amended): the concurrency cap of `CircuitBreaker.exec`.  A call that
is not failing fast as OPEN and finds `inflight ≥ maxConcurrent` throws
`TooManyRequests` without the supplied function being invoked.  When the
breaker was not OPEN on arrival, the rejected call leaves the state and every
counter unchanged; a call arriving while OPEN with the half-open delay
strictly elapsed first transitions the breaker to HALF_OPEN (resetting
`failures` and `successes`) and is then rejected.  A call admitted below the
cap increments `inflight` for its duration and restores it on both the
success and the failure exit path. -/
theorem circuitBreaker_concurrency_cap (o : Host.BreakerOpts) (b : Host.Breaker)
    (now : Nat) (fnOk : Bool) :
    (b.state ≠ .OPEN → o.maxConcurrent ≤ b.inflight →
      Host.exec o b now fnOk = (b, .tooManyRequests)) ∧
    ((Host.halfOpenCheck o b now).state ≠ .OPEN →
      o.maxConcurrent ≤ b.inflight →
      Host.exec o b now fnOk = (Host.halfOpenCheck o b now, .tooManyRequests)) ∧
    ((Host.execEnter o b now).2 = .admitted →
      (Host.execEnter o b now).1.inflight = b.inflight + 1 ∧
      (Host.execExit o (Host.execEnter o b now).1 now true).inflight = b.inflight ∧
      (Host.execExit o (Host.execEnter o b now).1 now false).inflight = b.inflight) := by
  refine ⟨?_, ?_, ?_⟩
  · intro h1 h2
    have hb : Host.halfOpenCheck o b now = b := by
      unfold Host.halfOpenCheck
      split
      · next hcond => exact absurd hcond.1 h1
      · rfl
    simp [Host.exec, Host.execEnter, hb, h1, h2]
  · intro h1 h2
    rw [← halfOpenCheck_inflight o b now] at h2
    simp [Host.exec, Host.execEnter, h1, h2]
  · intro h1
    obtain ⟨hs, hc⟩ := (execEnter_admitted_iff o b now).mp h1
    rw [execEnter_admitted_eq o b now hs hc]
    refine ⟨by simp [halfOpenCheck_inflight], ?_, ?_⟩ <;>
      simp [execExit_inflight, halfOpenCheck_inflight]

/-- Witness for C7 at concrete inputs: a CLOSED breaker at its cap rejects
with `TooManyRequests` and is left unchanged, and an admitted call bumps
`inflight` and restores it. -/
theorem circuitBreaker_concurrency_cap_witness :
    Host.exec Host.defaultBreakerOpts ⟨.CLOSED, 1, 0, 0, 20⟩ 5 true
      = (⟨.CLOSED, 1, 0, 0, 20⟩, .tooManyRequests) :=
  (circuitBreaker_concurrency_cap Host.defaultBreakerOpts ⟨.CLOSED, 1, 0, 0, 20⟩ 5 true).1
    (by decide) (by decide)

/-- Counterexample to C7 as stated: a call arriving while the breaker is
OPEN with the half-open delay strictly elapsed is not failing fast as OPEN,
is rejected by the cap (`inflight = 1 ≥ maxConcurrent = 1`), and yet does
NOT leave the breaker unchanged: it transitions OPEN → HALF_OPEN and resets
`failures` from 5 to 0 before throwing `TooManyRequests`. -/
theorem circuitBreaker_concurrency_cap_cex :
    Host.exec ⟨5, 2, 1000, 1, 5000⟩ ⟨.OPEN, 5, 0, 0, 1⟩ 2000 true
      = (⟨.HALF, 0, 0, 0, 1⟩, .tooManyRequests) ∧
    (⟨.HALF, 0, 0, 0, 1⟩ : Host.Breaker) ≠ ⟨.OPEN, 5, 0, 0, 1⟩ := by decide

/-! ### Claims C2, C3, C10 -/

/-- `String.append` is associative (via the underlying character lists). -/
theorem strAppend_assoc (a b c : String) : a ++ b ++ c = a ++ (b ++ c) := by
  apply String.ext
  simp [String.data_append, List.append_assoc]

/-- A list is a `isPrefixOf`-prefix of itself followed by anything. -/
theorem isPrefixOf_append_self {α : Type} [BEq α] [LawfulBEq α] (xs ys : List α) :
    List.isPrefixOf xs (xs ++ ys) = true := by
  induction xs with
  | nil => simp [List.isPrefixOf]
  | cons a t ih => simp [List.isPrefixOf, ih]

/-- Appending on the right preserves `jsStartsWith`. -/
theorem jsStartsWith_append (p r : String) : jsStartsWith (p ++ r) p = true := by
  simp [Host.jsStartsWith, String.data_append, isPrefixOf_append_self]

/-- The `get` cache key extends the `update`/`delete` invalidation prefix by
the projection component. -/
theorem getKey_eq_prefix_append (id oc uid : String) (attrs : Option (List String)) :
    getKey id oc uid attrs
      = getInvalidationPrefixOf id oc uid
        ++ ("|" ++ KeyPart.stringify (.strList (sortedAttrs attrs))) := by
  simp only [Host.getKey, Host.getInvalidationPrefixOf, Host.keyOf, List.map, Host.joinBar]
  simp [strAppend_assoc]

/-- Every `get` key for `(id, oc, uid)` starts with the invalidation prefix. -/
theorem getKey_startsWith (id oc uid : String) (attrs : Option (List String)) :
    jsStartsWith (getKey id oc uid attrs) (getInvalidationPrefixOf id oc uid) = true := by
  rw [getKey_eq_prefix_append]
  exact jsStartsWith_append _ _

/-- `List.lookup` misses when no stored key equals the probe. -/
theorem lookup_none_of_forall {β : Type} (c : List (String × β)) (k : String)
    (h : ∀ p ∈ c, p.1 ≠ k) : List.lookup k c = none := by
  induction c with
  | nil => rfl
  | cons p t ih =>
    have hp : p.1 ≠ k := h p (List.mem_cons_self p t)
    have hk : (k == p.1) = false := by
      simp [beq_iff_eq]
      exact fun he => hp he.symm
    have ht : List.lookup k t = none := ih (fun q hq => h q (List.mem_cons_of_mem p hq))
    cases p with
    | mk a b => simp only [List.lookup, hk] at ht ⊢; exact ht

/-- C2: after a successful `ConnectorFacade.update(objectClass, uid, attrs)`,
every cache entry whose key begins with the prefix
`["get", instanceId, objectClass, uid]` has been removed from the returned
state — for any `attributesToGet` projection — and therefore a subsequent
`get` for that `(objectClass, uid)` on that state is never served from the
cache: it either invokes the impl (outcome `fresh`/`nullRes`/backend error)
or fails in the breaker, but no pre-write cache entry survives to answer it. -/
theorem facadeUpdate_invalidates {V : Type} (o : BreakerOpts) (st st2 : FacadeSt V)
    (id oc uid : String) (now : Nat) (implRes : Except Unit V) (v : V)
    (h : facadeUpdate o st id oc uid now implRes = (st2, .fresh v)) :
    (∀ p ∈ st2.cache, jsStartsWith p.1 (getInvalidationPrefixOf id oc uid) = false) ∧
    (∀ (attrs : Option (List String)) (now2 : Nat) (implRes2 : Except Unit (Option V)) (w : V),
      (facadeGet o st2 id oc uid attrs now2 implRes2).2 ≠ .cached w) := by
  have hcache : st2.cache = invalidatePrefix st.cache (getInvalidationPrefixOf id oc uid) := by
    rcases hE : execEnter o st.breaker now with ⟨b1, res⟩
    cases res <;> simp [facadeUpdate, hE] at h
    cases implRes with
    | ok u =>
      simp at h
      rw [← h.1]
    | error e => simp at h
  have hmem : ∀ p ∈ st2.cache, jsStartsWith p.1 (getInvalidationPrefixOf id oc uid) = false := by
    intro p hp
    rw [hcache] at hp
    have := List.of_mem_filter hp
    simpa using this
  refine ⟨hmem, ?_⟩
  intro attrs now2 implRes2 w
  have hk : List.lookup (getKey id oc uid attrs) st2.cache = none := by
    apply lookup_none_of_forall
    intro p hp he
    have h1 := hmem p hp
    rw [he, getKey_startsWith] at h1
    exact Bool.true_eq_false.mp h1
  have hcg : cacheGet st2.cache (getKey id oc uid attrs) now2 = none := by
    simp [cacheGet, hk]
  simp only [facadeGet, hcg]
  rcases hE2 : execEnter o st2.breaker now2 with ⟨b2, res2⟩
  cases res2 <;> simp
  cases implRes2 with
  | ok u => cases u <;> simp
  | error e => simp

/-- Witness for C2 at concrete inputs: a cache holding one `get` entry for
`("i","User","u1")`, emptied by a successful update; the following `get` is
not served from the cache. -/
theorem facadeUpdate_invalidates_witness :
    (facadeGet defaultBreakerOpts (⟨[], Breaker.start⟩ : FacadeSt Nat)
        "i" "User" "u1" (some ["name"]) 6 (.ok (some 3))).2 ≠ .cached 1 :=
  (facadeUpdate_invalidates defaultBreakerOpts
      ⟨[(getKey "i" "User" "u1" (some ["name"]), ⟨1, 0, 30000⟩)], Breaker.start⟩
      ⟨[], Breaker.start⟩ "i" "User" "u1" 5 (.ok 2) 2 (by decide)).2
    (some ["name"]) 6 (.ok (some 3)) 1

/-- Counterexample to C3: `addAttributeValues` succeeds against a cache that
holds a `get` entry for the written `("i","User","u1")` — an entry whose key
does begin with the update-invalidation prefix — and the entry is still
present (and still served) afterwards: the source performs no invalidation in
`addAttributeValues`/`removeAttributeValues` (ConnectorFacade.ts lines 73-81). -/
theorem facadeAdd_no_invalidation_cex :
    (facadeAddAttributeValues defaultBreakerOpts
        (⟨[(getKey "i" "User" "u1" none, ⟨7, 0, 30000⟩)], Breaker.start⟩ : FacadeSt Nat)
        "User" "u1" 10 (.ok 9)).2 = .fresh 9 ∧
    jsStartsWith (getKey "i" "User" "u1" none) (getInvalidationPrefixOf "i" "User" "u1") = true ∧
    cacheHas (facadeAddAttributeValues defaultBreakerOpts
        (⟨[(getKey "i" "User" "u1" none, ⟨7, 0, 30000⟩)], Breaker.start⟩ : FacadeSt Nat)
        "User" "u1" 10 (.ok 9)).1.cache (getKey "i" "User" "u1" none) 10 = true := by
  decide

/-- C3 (amended): `addAttributeValues` and `removeAttributeValues` run the
impl through the breaker but perform NO cache invalidation: the shared cache
of the returned state is exactly the input cache, on every path (success,
backend failure, breaker rejection), so a following `get` for the written
`(objectClass, uid)` may still be served a cache entry stored before the
write, until that entry expires or is invalidated by `update`/`delete`. -/
theorem facadeAddRemove_cache_unchanged {V : Type} (o : BreakerOpts) (st : FacadeSt V)
    (oc uid : String) (now : Nat) (implRes : Except Unit V) :
    (facadeAddAttributeValues o st oc uid now implRes).1.cache = st.cache ∧
    (facadeRemoveAttributeValues o st oc uid now implRes).1.cache = st.cache := by
  constructor <;>
    (rcases hE : execEnter o st.breaker now with ⟨b1, res⟩
     cases res <;>
       cases implRes <;>
       simp [facadeAddAttributeValues, facadeRemoveAttributeValues, hE])

/-- C10: when an unexpired cache entry exists under the schema key
`["schema", instanceId]` or under a get key
`["get", instanceId, objectClass, uid, sortedAttributesToGet]`, the
corresponding `schema()`/`get()` call returns exactly that cached value with
the facade state unchanged — in particular the breaker (whatever its state,
including OPEN) is not consulted and its counters do not change, and the impl
outcome argument is irrelevant (the impl is not invoked). -/
theorem facade_cacheHit_bypasses_breaker {V : Type} (o : BreakerOpts) (st : FacadeSt V)
    (id oc uid : String) (attrs : Option (List String)) (now : Nat)
    (implS : Except Unit V) (implG : Except Unit (Option V)) (v w : V)
    (hv : cacheGet st.cache (schemaKey id) now = some v)
    (hw : cacheGet st.cache (getKey id oc uid attrs) now = some w) :
    facadeSchema o st id now implS = (st, .cached v) ∧
    facadeGet o st id oc uid attrs now implG = (st, .cached w) := by
  constructor
  · simp only [facadeSchema, hv]
  · simp only [facadeGet, hw]

/-- Witness for C10 at concrete inputs: with the breaker OPEN, a schema call
and a get call are both served from the cache with the state untouched. -/
theorem facade_cacheHit_bypasses_breaker_witness :
    facadeSchema defaultBreakerOpts
        (⟨[(schemaKey "i", ⟨10, 0, 300000⟩), (getKey "i" "User" "u1" none, ⟨11, 0, 30000⟩)],
          ⟨.OPEN, 5, 0, 0, 0⟩⟩ : FacadeSt Nat) "i" 5 (.error ())
      = (⟨[(schemaKey "i", ⟨10, 0, 300000⟩), (getKey "i" "User" "u1" none, ⟨11, 0, 30000⟩)],
          ⟨.OPEN, 5, 0, 0, 0⟩⟩, .cached 10) ∧
    facadeGet defaultBreakerOpts
        (⟨[(schemaKey "i", ⟨10, 0, 300000⟩), (getKey "i" "User" "u1" none, ⟨11, 0, 30000⟩)],
          ⟨.OPEN, 5, 0, 0, 0⟩⟩ : FacadeSt Nat) "i" "User" "u1" none 5 (.error ())
      = (⟨[(schemaKey "i", ⟨10, 0, 300000⟩), (getKey "i" "User" "u1" none, ⟨11, 0, 30000⟩)],
          ⟨.OPEN, 5, 0, 0, 0⟩⟩, .cached 11) :=
  facade_cacheHit_bypasses_breaker defaultBreakerOpts _ "i" "User" "u1" none 5
    (.error ()) (.error ()) 10 11 (by decide) (by decide)

/-! ### Claims C8 and C9 -/

/-- The reference string `${X_SECRET}` parses as a reference to `X_SECRET`. -/
theorem envRefName_xsecret : envRefName (envRef "X_SECRET") = some "X_SECRET" := by
  decide

/-- Resolving the reference string against an environment that defines
`X_SECRET = shh` yields `shh`. -/
theorem resolveEnv_str_hit :
    resolveEnvStrings [("X_SECRET", "shh")] (.vstr (envRef "X_SECRET"))
      = .ok (.vstr "shh") := by
  rw [resolveEnvStrings, envRefName_xsecret]
  rfl

/-- Resolving against an empty environment fails. -/
theorem resolveEnv_str_miss :
    resolveEnvStrings [] (.vstr (envRef "X_SECRET"))
      = .error ("Missing environment variable " ++ "X_SECRET") := by
  rw [resolveEnvStrings, envRefName_xsecret]
  rfl

/-- Object-level resolution with the variable set. -/
theorem resolveEnv_obj_hit :
    resolveEnvStrings [("X_SECRET", "shh")]
      (.vobj [("clientSecret", .vstr (envRef "X_SECRET"))])
      = .ok (.vobj [("clientSecret", .vstr "shh")]) := by
  rw [resolveEnvStrings, resolveEnvFields, resolveEnv_str_hit, resolveEnvFields]

/-- Object-level resolution with the variable unset. -/
theorem resolveEnv_obj_miss :
    resolveEnvStrings []
      (.vobj [("clientSecret", .vstr (envRef "X_SECRET"))])
      = .error ("Missing environment variable " ++ "X_SECRET") := by
  rw [resolveEnvStrings, resolveEnvFields, resolveEnv_str_miss]

/-- One-step unfolding of `loadInstanceConfig`. -/
theorem loadInstanceConfig_eq (env : List (String × String))
    (baseCfg instCfg : List (String × CVal)) (build : Option (CVal → CVal)) :
    loadInstanceConfig env baseCfg instCfg build
      = match resolveEnvStrings env (.vobj (mergeShallow baseCfg instCfg)) with
        | .error e => .error e
        | .ok _ =>
          .ok (match build with
               | some f => f (CVal.vobj (mergeShallow baseCfg instCfg))
               | none => CVal.vobj (mergeShallow baseCfg instCfg)) := rfl

/-- C8: the loader computes the env-resolved merge but passes the UNRESOLVED
merge on.  With instance config `clientSecret = ${X_SECRET}` and environment
`X_SECRET = shh`, the configuration handed to `initInstance` still contains
the literal `${X_SECRET}` reference — while `resolveEnvStrings` on the same
merge yields `clientSecret = shh`, the value the claim (spec scenario S5)
requires.  With `X_SECRET` unset, the instance load does fail, as the claim
states. -/
theorem loader_env_substitution_bug :
    (loadInstanceConfig [("X_SECRET", "shh")] []
        [("clientSecret", .vstr (envRef "X_SECRET"))] none
      = .ok (.vobj [("clientSecret", .vstr (envRef "X_SECRET"))])) ∧
    (resolveEnvStrings [("X_SECRET", "shh")]
        (.vobj [("clientSecret", .vstr (envRef "X_SECRET"))])
      = .ok (.vobj [("clientSecret", .vstr "shh")])) ∧
    envRef "X_SECRET" ≠ "shh" ∧
    (loadInstanceConfig [] [] [("clientSecret", .vstr (envRef "X_SECRET"))] none
      = .error ("Missing environment variable " ++ "X_SECRET")) := by
  have hmerge : mergeShallow [] [("clientSecret", CVal.vstr (envRef "X_SECRET"))]
      = [("clientSecret", CVal.vstr (envRef "X_SECRET"))] := rfl
  refine ⟨?_, resolveEnv_obj_hit, by decide, ?_⟩
  · rw [loadInstanceConfig_eq, hmerge, resolveEnv_obj_hit]
  · rw [loadInstanceConfig_eq, hmerge, resolveEnv_obj_miss]

/-- C9: `getVersions` sorts with the default lexicographic string sort, not
by semantic-version precedence.  With versions `1.2.0` and `1.10.0`
registered for `example`, the source returns `["1.10.0", "1.2.0"]` and
`getLatestVersion` returns `1.2.0`, whereas semver order (which the claim
states, and which the repository test expects via `semver.compare`) puts
`1.2.0` strictly before `1.10.0`, making `1.10.0` the maximum. -/
theorem getVersions_lexicographic_bug :
    getVersions [toConnectorKey "example" "1.2.0", toConnectorKey "example" "1.10.0"] "example"
      = ["1.10.0", "1.2.0"] ∧
    getLatestVersion [toConnectorKey "example" "1.2.0", toConnectorKey "example" "1.10.0"]
        "example" = some "1.2.0" ∧
    semverLt "1.2.0" "1.10.0" = true ∧
    semverLt "1.10.0" "1.2.0" = false := by
  decide

/-! ### Claims C5 and C6 -/

theorem countDollar_append (a b : String) :
    countDollar (a ++ b) = countDollar a + countDollar b := by
  simp [countDollar, String.data_append, List.countP_append]

theorem isColChar_not_dollar (c : Char) (h : isColChar c = true) :
    (c == Char.ofNat 36) = false := by
  cases hc : (c == Char.ofNat 36) with
  | false => rfl
  | true =>
    rw [beq_iff_eq] at hc
    rw [hc] at h
    exact absurd h (by decide)

theorem safeColTail_no_dollar :
    ∀ cs, safeColTail cs = true → ∀ c ∈ cs, (c == Char.ofNat 36) = false
  | [], h => Bool.noConfusion h
  | [a], h => Bool.noConfusion h
  | [a, b], h => by
    simp only [safeColTail, Bool.and_eq_true] at h
    intro c hc
    rcases List.mem_pair.mp hc with rfl | rfl
    · exact isColChar_not_dollar c h.1
    · rw [beq_iff_eq] at *
      rw [h.2]
      decide
  | a :: b :: d :: rest, h => by
    simp only [safeColTail, Bool.and_eq_true] at h
    intro c hc
    rcases List.mem_cons.mp hc with rfl | hc2
    · exact isColChar_not_dollar c h.1
    · exact safeColTail_no_dollar (b :: d :: rest) h.2 c hc2

theorem safeCol_count (col : String) (h : safeCol col = true) :
    countDollar col = 0 := by
  rw [countDollar, List.countP_eq_zero]
  unfold safeCol at h
  cases hd : col.data with
  | nil => rw [hd] at h; simp at h
  | cons ch rest =>
    rw [hd] at h
    simp only [Bool.and_eq_true, beq_iff_eq] at h
    intro c hc
    rcases List.mem_cons.mp hc with rfl | hc2
    · rw [h.1]; decide
    · simp [safeColTail_no_dollar rest h.2 c hc2]

theorem colFor_ok_safe (colMap : List (String × String)) (path : List String)
    (col : String) (h : colFor colMap path = .ok col) : safeCol col = true := by
  simp only [colFor] at h
  split at h
  · exact absurd h (by simp)
  · split at h
    · next hs => cases h; exact hs
    · exact absurd h (by simp)

theorem natToChars_no_dollar (n : Nat) :
    ∀ c ∈ natToChars n, (c == Char.ofNat 36) = false := by
  induction n using Nat.strong_induction_on with
  | _ n ih =>
    rw [natToChars]
    split
    · intro c hc
      rw [List.mem_singleton] at hc
      subst hc
      unfold digitChar
      split <;> decide
    · intro c hc
      rcases List.mem_append.mp hc with hc2 | hc2
      · exact ih (n / 10) (Nat.div_lt_self (by omega) (by omega)) c hc2
      · rw [List.mem_singleton] at hc2
        subst hc2
        unfold digitChar
        split <;> decide

theorem countDollar_natToStr (n : Nat) : countDollar (natToStr n) = 0 := by
  rw [countDollar, List.countP_eq_zero]
  intro c hc
  simp [natToChars_no_dollar n c hc]

theorem countDollar_placeholder (n : Nat) : countDollar ("$" ++ natToStr n) = 1 := by
  rw [countDollar_append, countDollar_natToStr]
  decide

theorem countDollar_joinSep (sep : String) (hsep : countDollar sep = 0) :
    ∀ parts, countDollar (joinSep sep parts) = (parts.map countDollar).sum
  | [] => by simp [joinSep, countDollar]
  | [x] => by simp [joinSep]
  | x :: y :: ys => by
    rw [joinSep, countDollar_append, countDollar_append, hsep,
        countDollar_joinSep sep hsep (y :: ys)]
    simp

theorem sum_map_one {α : Type} (l : List α) :
    (l.map (fun _ => (1 : Nat))).sum = l.length := by
  induction l with
  | nil => rfl
  | cons x rest ih =>
    simp [ih]
    omega

theorem countDollar_placeholderRun (k m : Nat) :
    countDollar (joinSep ","
      ((List.range k).map (fun j => "$" ++ natToStr (m + j)))) = k := by
  rw [countDollar_joinSep "," (by decide)]
  rw [List.map_map]
  have he : ((List.range k).map (countDollar ∘ fun j => "$" ++ natToStr (m + j)))
      = (List.range k).map (fun _ => (1 : Nat)) := by
    apply List.map_congr_left
    intro j _
    exact countDollar_placeholder (m + j)
  rw [he, sum_map_one, List.length_range]

theorem scalarOpSql_dollarFree (op : FOp) (value : Option FValue)
    (opStr : String) (v : Option FValue)
    (h : scalarOpSql op value = .ok (opStr, v)) : countDollar opStr = 0 := by
  cases op <;> simp [scalarOpSql] at h <;> (try (rw [← h.1]; decide))

mutual
theorem sqlWalk_count (colMap : List (String × String)) (n : FNode) (idx : Nat)
    (sql : String) (ps : List (Option FValue)) (next : Nat)
    (h : sqlWalk colMap n idx = .ok (sql, ps, next)) :
    countDollar sql = ps.length ∧ next = idx + ps.length := by
  cases n with
  | cmp op path value =>
    rw [sqlWalk] at h
    split at h
    · exact absurd h (by simp)
    · rename_i col hcol
      have hcd : countDollar col = 0 :=
        safeCol_count col (colFor_ok_safe colMap path col hcol)
      split at h
      · simp at h
        obtain ⟨h1, h2, h3⟩ := h
        subst h1; subst h2; subst h3
        refine ⟨?_, by simp⟩
        rw [countDollar_append, hcd]
        decide
      · split at h
        · simp at h
          obtain ⟨h1, h2, h3⟩ := h
          subst h1; subst h2; subst h3
          refine ⟨?_, by simp⟩
          rw [countDollar_append, countDollar_append, countDollar_append, hcd,
              countDollar_placeholderRun]
          have e1 : countDollar " = ANY(ARRAY[" = 0 := by decide
          have e2 : countDollar "])" = 0 := by decide
          simp [e1, e2]
        · split at h
          · exact absurd h (by simp)
          · rename_i pr opStr w hso
            simp at h
            obtain ⟨h1, h2, h3⟩ := h
            subst h1; subst h2; subst h3
            refine ⟨?_, by simp⟩
            rw [countDollar_append, countDollar_append, countDollar_append,
                countDollar_append, hcd, countDollar_placeholder,
                scalarOpSql_dollarFree op value opStr w hso]
            have e1 : countDollar " " = 0 := by decide
            simp [e1]
  | andN ns =>
    rw [sqlWalk] at h
    split at h
    · exact absurd h (by simp)
    · rename_i parts ps2 i hl
      simp at h
      obtain ⟨h1, h2, h3⟩ := h
      subst h1; subst h2; subst h3
      have IH := sqlWalkList_count colMap ns idx parts _ i hl
      refine ⟨?_, IH.2⟩
      rw [countDollar_append, countDollar_append,
          countDollar_joinSep " AND " (by decide) parts, IH.1]
      have e1 : countDollar "(" = 0 := by decide
      have e2 : countDollar ")" = 0 := by decide
      simp [e1, e2]
  | orN ns =>
    rw [sqlWalk] at h
    split at h
    · exact absurd h (by simp)
    · rename_i parts ps2 i hl
      simp at h
      obtain ⟨h1, h2, h3⟩ := h
      subst h1; subst h2; subst h3
      have IH := sqlWalkList_count colMap ns idx parts _ i hl
      refine ⟨?_, IH.2⟩
      rw [countDollar_append, countDollar_append,
          countDollar_joinSep " OR " (by decide) parts, IH.1]
      have e1 : countDollar "(" = 0 := by decide
      have e2 : countDollar ")" = 0 := by decide
      simp [e1, e2]
  | notN m =>
    rw [sqlWalk] at h
    split at h
    · exact absurd h (by simp)
    · rename_i s ps2 i hm
      simp at h
      obtain ⟨h1, h2, h3⟩ := h
      subst h1; subst h2; subst h3
      have IH := sqlWalk_count colMap m idx s _ i hm
      refine ⟨?_, IH.2⟩
      rw [countDollar_append, countDollar_append, IH.1]
      have e1 : countDollar "(NOT " = 0 := by decide
      have e2 : countDollar ")" = 0 := by decide
      simp [e1, e2]
termination_by sizeOf n

theorem sqlWalkList_count (colMap : List (String × String)) (ns : List FNode) (idx : Nat)
    (parts : List String) (ps : List (Option FValue)) (next : Nat)
    (h : sqlWalkList colMap ns idx = .ok (parts, ps, next)) :
    (parts.map countDollar).sum = ps.length ∧ next = idx + ps.length := by
  cases ns with
  | nil =>
    rw [sqlWalkList] at h
    simp at h
    obtain ⟨h1, h2, h3⟩ := h
    subst h1; subst h2; subst h3
    simp
  | cons x rest =>
    rw [sqlWalkList] at h
    split at h
    · exact absurd h (by simp)
    · rename_i s ps1 i hx
      split at h
      · exact absurd h (by simp)
      · rename_i ss ps2 i2 hrest
        simp at h
        obtain ⟨h1, h2, h3⟩ := h
        subst h1; subst h2; subst h3
        have IH1 := sqlWalk_count colMap x idx s _ i hx
        have IH2 := sqlWalkList_count colMap rest i ss _ i2 hrest
        refine ⟨?_, ?_⟩
        · simp [IH1.1, IH2.1]
        · rw [IH2.2, IH1.2]
          simp
          omega
termination_by sizeOf ns
end


theorem validNode_cmp_value (op : FOp) (path : List String) (value : Option FValue)
    (hv : validNode (.cmp op path value) = true) :
    (op = .EXISTS → value = none) ∧
    (op = .IN → ∃ xs, value = some (.arr xs)) ∧
    (op ≠ .EXISTS → op ≠ .IN → ∃ p, value = some (.prim p)) := by
  cases op <;>
    (cases value with
     | none => refine ⟨?_, ?_, ?_⟩ <;> simp_all [validNode]
     | some fv => cases fv <;> (refine ⟨?_, ?_, ?_⟩ <;> simp_all [validNode]))

theorem exists_of_isOk {ε α : Type} (e : Except ε α) (h : e.isOk = true) :
    ∃ a, e = .ok a := by
  cases e with
  | error x => simp [Except.isOk, Except.toBool] at h
  | ok a => exact ⟨a, rfl⟩

mutual
theorem sqlWalk_ok_pathsOk (colMap : List (String × String)) (n : FNode) (idx : Nat)
    (r : String × List (Option FValue) × Nat)
    (h : sqlWalk colMap n idx = .ok r) : pathsOk colMap n = true := by
  cases n with
  | cmp op path value =>
    rw [sqlWalk] at h
    split at h
    · exact absurd h (by simp)
    · rename_i col hcol
      simp [pathsOk, hcol, Except.isOk, Except.toBool]
  | andN ns =>
    rw [sqlWalk] at h
    split at h
    · exact absurd h (by simp)
    · rename_i parts ps2 i hl
      rw [pathsOk]
      exact sqlWalkList_ok_pathsOk colMap ns idx _ hl
  | orN ns =>
    rw [sqlWalk] at h
    split at h
    · exact absurd h (by simp)
    · rename_i parts ps2 i hl
      rw [pathsOk]
      exact sqlWalkList_ok_pathsOk colMap ns idx _ hl
  | notN m =>
    rw [sqlWalk] at h
    split at h
    · exact absurd h (by simp)
    · rename_i s ps2 i hm
      rw [pathsOk]
      exact sqlWalk_ok_pathsOk colMap m idx _ hm
termination_by sizeOf n

theorem sqlWalkList_ok_pathsOk (colMap : List (String × String)) (ns : List FNode)
    (idx : Nat) (r : List String × List (Option FValue) × Nat)
    (h : sqlWalkList colMap ns idx = .ok r) : pathsOkList colMap ns = true := by
  cases ns with
  | nil => rw [pathsOkList]
  | cons x rest =>
    rw [sqlWalkList] at h
    split at h
    · exact absurd h (by simp)
    · rename_i s ps1 i hx
      split at h
      · exact absurd h (by simp)
      · rename_i ss ps2 i2 hrest
        rw [pathsOkList, Bool.and_eq_true]
        exact ⟨sqlWalk_ok_pathsOk colMap x idx _ hx,
               sqlWalkList_ok_pathsOk colMap rest i _ hrest⟩
termination_by sizeOf ns
end

mutual
theorem sqlWalk_valid_ok (colMap : List (String × String)) (n : FNode)
    (hv : validNode n = true) (hp : pathsOk colMap n = true) (idx : Nat) :
    (sqlWalk colMap n idx).isOk = true := by
  cases n with
  | cmp op path value =>
    rw [pathsOk] at hp
    obtain ⟨col, hcol⟩ := exists_of_isOk _ hp
    have H := validNode_cmp_value op path value hv
    cases op
    case EXISTS =>
      have hvn : value = none := H.1 rfl
      subst hvn
      simp [sqlWalk, hcol, Except.isOk, Except.toBool]
    case IN =>
      obtain ⟨xs, hxs⟩ := H.2.1 rfl
      subst hxs
      simp [sqlWalk, hcol, Except.isOk, Except.toBool]
    all_goals (
      obtain ⟨p, hps⟩ := H.2.2 (by decide) (by decide)
      subst hps
      simp [sqlWalk, hcol, scalarOpSql, Except.isOk, Except.toBool])
  | andN ns =>
    rw [validNode, Bool.and_eq_true, Bool.and_eq_true] at hv
    rw [pathsOk] at hp
    have hlist := sqlWalkList_valid_ok colMap ns hv.2 hp idx
    obtain ⟨r, hr⟩ := exists_of_isOk _ hlist
    obtain ⟨parts, ps2, i⟩ := r
    simp [sqlWalk, hr, Except.isOk, Except.toBool]
  | orN ns =>
    rw [validNode, Bool.and_eq_true, Bool.and_eq_true] at hv
    rw [pathsOk] at hp
    have hlist := sqlWalkList_valid_ok colMap ns hv.2 hp idx
    obtain ⟨r, hr⟩ := exists_of_isOk _ hlist
    obtain ⟨parts, ps2, i⟩ := r
    simp [sqlWalk, hr, Except.isOk, Except.toBool]
  | notN m =>
    rw [validNode] at hv
    rw [pathsOk] at hp
    have hm := sqlWalk_valid_ok colMap m hv hp idx
    obtain ⟨r, hr⟩ := exists_of_isOk _ hm
    obtain ⟨s, ps2, i⟩ := r
    simp [sqlWalk, hr, Except.isOk, Except.toBool]
termination_by sizeOf n

theorem sqlWalkList_valid_ok (colMap : List (String × String)) (ns : List FNode)
    (hv : validNodeList ns = true) (hp : pathsOkList colMap ns = true) (idx : Nat) :
    (sqlWalkList colMap ns idx).isOk = true := by
  cases ns with
  | nil => simp [sqlWalkList, Except.isOk, Except.toBool]
  | cons x rest =>
    rw [validNodeList, Bool.and_eq_true] at hv
    rw [pathsOkList, Bool.and_eq_true] at hp
    have hx := sqlWalk_valid_ok colMap x hv.1 hp.1 idx
    obtain ⟨r1, hr1⟩ := exists_of_isOk _ hx
    obtain ⟨s, ps1, i⟩ := r1
    have hrest := sqlWalkList_valid_ok colMap rest hv.2 hp.2 i
    obtain ⟨r2, hr2⟩ := exists_of_isOk _ hrest
    obtain ⟨ss, ps2, i2⟩ := r2
    simp [sqlWalkList, hr1, hr2, Except.isOk, Except.toBool]
termination_by sizeOf ns
end

/-- C5: for every validated filter AST (`validNode`) and every column map,
`toSql` fails exactly when some dotted path is absent from the map or the
mapped column fails the safety regex (`pathsOk`); on success the `params`
array length equals the number of `$` characters in the returned sql and the
returned next index is the caller-chosen start index plus that number
(placeholders are emitted consecutively from the start index by
construction: each emission uses the running index and advances it by one).
`IN` with an array emits `= ANY(ARRAY[...])` with one placeholder and one
parameter per element, and `CONTAINS`/`STARTS_WITH`/`ENDS_WITH` emit `LIKE`
with the `%`-wrapped value passed as a parameter — the value never appears
in the sql text, which consists only of the mapped column, the operator
token and the placeholder. -/
theorem toSql_parameterization (colMap : List (String × String)) (n : FNode)
    (startIndex : Nat) (hv : validNode n = true) :
    ((toSql n colMap startIndex).isOk = true ↔ pathsOk colMap n = true) ∧
    (∀ sql ps next, toSql n colMap startIndex = .ok (sql, ps, next) →
       countDollar sql = ps.length ∧ next = startIndex + ps.length) ∧
    (∀ path xs col, colFor colMap path = .ok col →
       toSql (.cmp .IN path (some (.arr xs))) colMap startIndex
         = .ok (col ++ " = ANY(ARRAY["
                  ++ joinSep "," ((List.range xs.length).map
                        (fun j => "$" ++ natToStr (startIndex + j)))
                  ++ "])",
                xs.map (fun x => some (FValue.prim x)), startIndex + xs.length)) ∧
    (∀ path p col, colFor colMap path = .ok col →
       toSql (.cmp .CONTAINS path (some (.prim p))) colMap startIndex
         = .ok (col ++ " " ++ "LIKE" ++ " " ++ ("$" ++ natToStr startIndex),
                [some (.prim (.pstr ("%" ++ p.jsString ++ "%")))], startIndex + 1)) ∧
    (∀ path p col, colFor colMap path = .ok col →
       toSql (.cmp .STARTS_WITH path (some (.prim p))) colMap startIndex
         = .ok (col ++ " " ++ "LIKE" ++ " " ++ ("$" ++ natToStr startIndex),
                [some (.prim (.pstr (p.jsString ++ "%")))], startIndex + 1)) ∧
    (∀ path p col, colFor colMap path = .ok col →
       toSql (.cmp .ENDS_WITH path (some (.prim p))) colMap startIndex
         = .ok (col ++ " " ++ "LIKE" ++ " " ++ ("$" ++ natToStr startIndex),
                [some (.prim (.pstr ("%" ++ p.jsString)))], startIndex + 1)) := by
  refine ⟨⟨fun h => ?_, fun h => ?_⟩,
          fun sql ps next h => sqlWalk_count colMap n startIndex sql ps next h,
          ?_, ?_, ?_, ?_⟩
  · obtain ⟨r, hr⟩ := exists_of_isOk _ h
    exact sqlWalk_ok_pathsOk colMap n startIndex r hr
  · exact sqlWalk_valid_ok colMap n hv h startIndex
  · intro path xs col hcol
    simp [toSql, sqlWalk, hcol]
  · intro path p col hcol
    simp [toSql, sqlWalk, hcol, scalarOpSql, jsShow]
  · intro path p col hcol
    simp [toSql, sqlWalk, hcol, scalarOpSql, jsShow]
  · intro path p col hcol
    simp [toSql, sqlWalk, hcol, scalarOpSql, jsShow]

/-- Witness for C5 at concrete inputs: `EQ` on path `name` mapped to column
`"name"` yields one placeholder, one parameter, and next index 2. -/
theorem toSql_parameterization_witness :
    countDollar ((String.mk [dq] ++ "name" ++ String.mk [dq]) ++ " " ++ "=" ++ " "
        ++ ("$" ++ natToStr 1))
      = [some (FValue.prim (Prim.pstr "x"))].length ∧
    (2 : Nat) = 1 + [some (FValue.prim (Prim.pstr "x"))].length :=
  (toSql_parameterization
      [("name", String.mk [dq] ++ "name" ++ String.mk [dq])]
      (.cmp .EQ ["name"] (some (.prim (.pstr "x")))) 1
      (by simp [validNode, pathOkB]; decide)).2.1
    _ _ _
    (by
      have hsc : safeCol (String.mk [dq] ++ "name" ++ String.mk [dq]) = true := by decide
      simp [toSql, sqlWalk, colFor, joinSep, scalarOpSql, hsc])

theorem noLoneQuote_cons_ne (c : Char) (l : List Char) (hc : ¬ c = sq) :
    noLoneQuote (c :: l) = noLoneQuote l := by
  conv_lhs => rw [noLoneQuote.eq_def]
  simp [hc]

theorem noLoneQuote_cons_sq (l : List Char) :
    noLoneQuote (sq :: sq :: l) = noLoneQuote l := by
  conv_lhs => rw [noLoneQuote.eq_def]
  simp

theorem noLone_foldr (l : List Char) :
    noLoneQuote (l.foldr
      (fun c acc => if c = sq then sq :: sq :: acc else c :: acc) []) = true := by
  induction l with
  | nil => rfl
  | cons c rest ih =>
    simp only [List.foldr]
    by_cases hc : c = sq
    · rw [if_pos hc, noLoneQuote_cons_sq]
      exact ih
    · rw [if_neg hc, noLoneQuote_cons_ne c _ hc]
      exact ih

theorem doubleQuotes_noLone (s : String) :
    noLoneQuote (doubleQuotes s).data = true :=
  noLone_foldr s.data

/-- C6: for every comparison whose path is a single allowed segment and
whose value is a string, `astToOData` emits the operator form with the value
single-quoted and every embedded single quote doubled, so the escaped value
contains no lone quote; every comparison with a path of length greater than
one, and every single-segment path outside the allow set, fails with a
translation error. -/
theorem astToOData_escapes (allowed : List String) (f v : String)
    (hf : allowed.contains f = true) :
    (astToOData (.cmp .EQ [f] (.pstr v)) allowed = .ok (f ++ " eq " ++ escO v)) ∧
    (astToOData (.cmp .CONTAINS [f] (.pstr v)) allowed
      = .ok ("contains(" ++ f ++ ", " ++ escO v ++ ")")) ∧
    (astToOData (.cmp .STARTS_WITH [f] (.pstr v)) allowed
      = .ok ("startswith(" ++ f ++ ", " ++ escO v ++ ")")) ∧
    (astToOData (.cmp .ENDS_WITH [f] (.pstr v)) allowed
      = .ok ("endswith(" ++ f ++ ", " ++ escO v ++ ")")) ∧
    noLoneQuote (doubleQuotes v).data = true ∧
    (∀ (op : OOp) (path : List String) (val : Prim), 2 ≤ path.length →
      astToOData (.cmp op path val) allowed
        = .error "Nested filters not supported for Graph yet") ∧
    (∀ (op : OOp) (g : String) (val : Prim), allowed.contains g = false →
      astToOData (.cmp op [g] val) allowed
        = .error ("Filtering not allowed on " ++ String.mk [sq] ++ g ++ String.mk [sq])) := by
  have hf2 : f ∈ allowed := by simpa using hf
  refine ⟨?_, ?_, ?_, ?_, doubleQuotes_noLone v, ?_, ?_⟩
  · simp [astToOData, odWalk, odField, hf2, odValue]
  · simp [astToOData, odWalk, odField, hf2, odValue]
  · simp [astToOData, odWalk, odField, hf2, odValue]
  · simp [astToOData, odWalk, odField, hf2, odValue]
  · intro op path val hlen
    cases path with
    | nil => simp at hlen
    | cons a t =>
      cases t with
      | nil => simp at hlen
      | cons b t2 =>
        cases op <;> simp [astToOData, odWalk, odField]
  · intro op g val hg
    have hg2 : ¬ g ∈ allowed := by simpa using hg
    cases op <;> simp [astToOData, odWalk, odField, hg2]

/-- Witness for C6 at concrete inputs: `EQ` on `name` with a value spelling
OHara with an embedded single quote (written via its code point 39)
translates, with the value escaped. -/
theorem astToOData_escapes_witness :
    astToOData (.cmp .EQ ["name"] (.pstr ("O" ++ String.mk [sq] ++ "Hara"))) ["name"]
      = .ok ("name" ++ " eq " ++ escO ("O" ++ String.mk [sq] ++ "Hara")) :=
  (astToOData_escapes ["name"] "name" ("O" ++ String.mk [sq] ++ "Hara") (by decide)).1


theorem opOfString_isSome (s : String) :
    (opOfString s).isSome = opNames.contains s := by
  simp only [opOfString, opNames]
  split_ifs with h1 h2 h3 h4 h5 h6 h7 h8 h9 h10 <;> simp_all

theorem opOfString_exists (s : String) (op : FOp) (h : opOfString s = some op) :
    (op = .EXISTS) ↔ (s = "EXISTS") := by
  simp only [opOfString] at h
  split_ifs at h <;> cases h <;> simp_all

theorem parseSegs_iff (xs : List Json) :
    (parseSegs xs).isSome = xs.all segOK := by
  induction xs with
  | nil => rfl
  | cons x rest ih =>
    rw [parseSegs, List.all_cons]
    cases x with
    | jstr s =>
      by_cases hb : 1 ≤ s.length ∧ s.length ≤ 128
      · rw [show parseSeg (.jstr s) = some s from by simp [parseSeg, hb]]
        cases hr : parseSegs rest with
        | none => rw [hr] at ih; simp [segOK, hb, ← ih, hr]
        | some ss => rw [hr] at ih; simp [segOK, hb, ← ih, hr]
      · rw [show parseSeg (.jstr s) = none from by simp [parseSeg, hb]]
        simp only [Option.isSome]
        rw [segOK]
        simp at hb ⊢
        intro hx
        omega
    | jnull => simp [parseSeg, segOK, Option.isSome]
    | jbool b => simp [parseSeg, segOK, Option.isSome]
    | jnum n => simp [parseSeg, segOK, Option.isSome]
    | jarr ys => simp [parseSeg, segOK, Option.isSome]
    | jobj fs => simp [parseSeg, segOK, Option.isSome]

theorem parsePrims_iff (xs : List Json) :
    (parsePrims xs).isSome
      = xs.all (fun x =>
          match x with
          | .jstr _ => true
          | .jnum _ => true
          | _ => false) := by
  induction xs with
  | nil => rfl
  | cons x rest ih =>
    rw [parsePrims, List.all_cons]
    cases x <;>
      (first
        | (cases hr : parsePrims rest with
           | none => rw [hr] at ih; simp [parsePrimSN, ← ih, hr]
           | some ps => rw [hr] at ih; simp [parsePrimSN, ← ih, hr])
        | simp [parsePrimSN])

theorem parseValue_iff (j : Json) : (parseValue j).isSome = valueOK j := by
  cases j with
  | jarr xs =>
    rw [parseValue, valueOK]
    by_cases hb : 1 ≤ xs.length ∧ xs.length ≤ 100
    · rw [if_pos hb]
      have hp := parsePrims_iff xs
      cases hr : parsePrims xs with
      | none => rw [hr] at hp; simp [hb, ← hp]
      | some ps => rw [hr] at hp; simp [hb, ← hp]
    · rw [if_neg hb]
      simp at hb ⊢
      intro h1
      omega
  | jnull => rfl
  | jbool b => rfl
  | jnum n => rfl
  | jstr s => rfl
  | jobj fs => rfl

theorem parsePath_iff (j : Json) :
    (parsePath j).isSome
      = (match j with
         | .jarr segs =>
           decide (1 ≤ segs.length) && decide (segs.length ≤ 8) && segs.all segOK
         | _ => false) := by
  cases j with
  | jarr xs =>
    rw [parsePath]
    by_cases hb : 1 ≤ xs.length ∧ xs.length ≤ 8
    · rw [if_pos hb]
      simp [parseSegs_iff, hb]
    · rw [if_neg hb]
      simp at hb ⊢
      intro h1
      omega
  | jnull => rfl
  | jbool b => rfl
  | jnum n => rfl
  | jstr s => rfl
  | jobj fs => rfl

theorem parseCmpFields_iff (fields : List (String × Json)) :
    (parseCmpFields fields).isSome = cmpShapeOK fields := by
  rw [parseCmpFields, cmpShapeOK]
  cases hop : List.lookup "op" fields with
  | none => simp
  | some jop =>
    cases jop with
    | jstr t =>
      cases hpo : opOfString t with
      | none =>
        have hOk := opOfString_isSome t
        rw [hpo] at hOk
        have hnm : ¬ t ∈ opNames := by simpa using hOk.symm
        simp [parseOp, hpo]
        intro hmem
        exact absurd hmem hnm
      | some op =>
        have hOk := opOfString_isSome t
        rw [hpo] at hOk
        have hEx := opOfString_exists t op hpo
        cases hpath : List.lookup "path" fields with
        | none => simp [parseOp, hpo]
        | some jpath =>
          have hpi := parsePath_iff jpath
          cases hpp : parsePath jpath with
          | none =>
            rw [hpp] at hpi
            cases jpath <;> simp_all [parseOp]
          | some path =>
            rw [hpp] at hpi
            cases hval : List.lookup "value" fields with
            | none =>
              by_cases hx : op = .EXISTS
              · have ht : t = "EXISTS" := hEx.mp hx
                cases jpath <;> simp_all [parseOp]
              · have ht : ¬ t = "EXISTS" := fun hh => hx (hEx.mpr hh)
                cases jpath <;> simp_all [parseOp]
            | some jv =>
              have hvi := parseValue_iff jv
              cases hpv : parseValue jv with
              | none =>
                rw [hpv] at hvi
                cases jpath <;> simp_all [parseOp]
              | some v =>
                rw [hpv] at hvi
                by_cases hx : op = .EXISTS
                · have ht : t = "EXISTS" := hEx.mp hx
                  cases jpath <;> simp_all [parseOp]
                · have ht : ¬ t = "EXISTS" := fun hh => hx (hEx.mpr hh)
                  cases jpath <;> simp_all [parseOp]
    | jnull => simp [parseOp]
    | jbool b => simp [parseOp]
    | jnum n => simp [parseOp]
    | jarr ys => simp [parseOp]
    | jobj fs2 => simp [parseOp]

theorem parseFilter_cmp (fields : List (String × Json))
    (ht : List.lookup "type" fields = some (.jstr "CMP")) :
    parseFilter (.jobj fields) = parseCmpFields fields := by
  rw [parseFilter.eq_def]
  split <;> try simp_all
  all_goals (try (split <;> try simp_all))
  all_goals (try (split <;> try simp_all))
  all_goals simp_all

theorem parseFilter_and_arr (fields : List (String × Json)) (xs : List Json)
    (ht : List.lookup "type" fields = some (.jstr "AND"))
    (hn : List.lookup "nodes" fields = some (.jarr xs)) :
    parseFilter (.jobj fields)
      = (if 1 ≤ xs.length ∧ xs.length ≤ 50 then
           match parseNodeList xs with
           | some ns => some (.andN ns)
           | none => none
         else none) := by
  rw [parseFilter.eq_def]
  split <;> try simp_all
  all_goals (try (split <;> try simp_all))
  all_goals (try (split <;> try simp_all))
  all_goals simp_all

theorem parseFilter_or_arr (fields : List (String × Json)) (xs : List Json)
    (ht : List.lookup "type" fields = some (.jstr "OR"))
    (hn : List.lookup "nodes" fields = some (.jarr xs)) :
    parseFilter (.jobj fields)
      = (if 1 ≤ xs.length ∧ xs.length ≤ 50 then
           match parseNodeList xs with
           | some ns => some (.orN ns)
           | none => none
         else none) := by
  rw [parseFilter.eq_def]
  split <;> try simp_all
  all_goals (try (split <;> try simp_all))
  all_goals (try (split <;> try simp_all))
  all_goals simp_all

theorem parseFilter_not_some (fields : List (String × Json)) (x : Json)
    (ht : List.lookup "type" fields = some (.jstr "NOT"))
    (hn : List.lookup "node" fields = some x) :
    parseFilter (.jobj fields)
      = (match parseFilter x with
         | some m => some (.notN m)
         | none => none) := by
  rw [parseFilter.eq_def]
  split <;> try simp_all
  all_goals (try (split <;> try simp_all))
  all_goals (try (split <;> try simp_all))
  all_goals simp_all

theorem shapeOK_cmp (fields : List (String × Json))
    (ht : List.lookup "type" fields = some (.jstr "CMP")) :
    shapeOK (.jobj fields) = cmpShapeOK fields := by
  rw [shapeOK.eq_def]
  split <;> try simp_all
  all_goals (try (split <;> try simp_all))
  all_goals (try (split <;> try simp_all))
  all_goals simp_all

theorem shapeOK_and_arr (fields : List (String × Json)) (xs : List Json)
    (ht : List.lookup "type" fields = some (.jstr "AND"))
    (hn : List.lookup "nodes" fields = some (.jarr xs)) :
    shapeOK (.jobj fields)
      = (decide (1 ≤ xs.length) && decide (xs.length ≤ 50) && shapeOKList xs) := by
  rw [shapeOK.eq_def]
  split <;> try simp_all
  all_goals (try (split <;> try simp_all))
  all_goals (try (split <;> try simp_all))
  all_goals simp_all

theorem shapeOK_or_arr (fields : List (String × Json)) (xs : List Json)
    (ht : List.lookup "type" fields = some (.jstr "OR"))
    (hn : List.lookup "nodes" fields = some (.jarr xs)) :
    shapeOK (.jobj fields)
      = (decide (1 ≤ xs.length) && decide (xs.length ≤ 50) && shapeOKList xs) := by
  rw [shapeOK.eq_def]
  split <;> try simp_all
  all_goals (try (split <;> try simp_all))
  all_goals (try (split <;> try simp_all))
  all_goals simp_all

theorem shapeOK_not_some (fields : List (String × Json)) (x : Json)
    (ht : List.lookup "type" fields = some (.jstr "NOT"))
    (hn : List.lookup "node" fields = some x) :
    shapeOK (.jobj fields) = shapeOK x := by
  rw [shapeOK.eq_def]
  split <;> try simp_all
  all_goals (try (split <;> try simp_all))
  all_goals (try (split <;> try simp_all))
  all_goals simp_all

theorem parseFilter_obj (fields : List (String × Json)) :
    parseFilter (.jobj fields)
      = (match _h : List.lookup "type" fields with
         | some (.jstr "CMP") => parseCmpFields fields
         | some (.jstr "AND") =>
           (match _h2 : List.lookup "nodes" fields with
            | some (.jarr xs) =>
              if 1 ≤ xs.length ∧ xs.length ≤ 50 then
                match parseNodeList xs with
                | some ns => some (.andN ns)
                | none => none
              else none
            | _ => none)
         | some (.jstr "OR") =>
           (match _h2 : List.lookup "nodes" fields with
            | some (.jarr xs) =>
              if 1 ≤ xs.length ∧ xs.length ≤ 50 then
                match parseNodeList xs with
                | some ns => some (.orN ns)
                | none => none
              else none
            | _ => none)
         | some (.jstr "NOT") =>
           (match _h2 : List.lookup "node" fields with
            | some x =>
              (match parseFilter x with
               | some m => some (.notN m)
               | none => none)
            | none => none)
         | _ => none) := by
  rw [parseFilter.eq_def]

theorem shapeOK_obj (fields : List (String × Json)) :
    shapeOK (.jobj fields)
      = (match _h : List.lookup "type" fields with
         | some (.jstr "CMP") => cmpShapeOK fields
         | some (.jstr "AND") =>
           (match _h2 : List.lookup "nodes" fields with
            | some (.jarr xs) =>
              decide (1 ≤ xs.length) && decide (xs.length ≤ 50) && shapeOKList xs
            | _ => false)
         | some (.jstr "OR") =>
           (match _h2 : List.lookup "nodes" fields with
            | some (.jarr xs) =>
              decide (1 ≤ xs.length) && decide (xs.length ≤ 50) && shapeOKList xs
            | _ => false)
         | some (.jstr "NOT") =>
           (match _h2 : List.lookup "node" fields with
            | some x => shapeOK x
            | none => false)
         | _ => false) := by
  rw [shapeOK.eq_def]

theorem parseFilter_obj_notype (fields : List (String × Json))
    (ht : List.lookup "type" fields = none) :
    parseFilter (.jobj fields) = none := by
  rw [parseFilter_obj]
  split <;> try simp_all
  all_goals (try (split <;> try simp_all))
  all_goals simp_all

theorem parseFilter_obj_badtag (fields : List (String × Json)) (tv : Json)
    (ht : List.lookup "type" fields = some tv)
    (h1 : tv ≠ .jstr "CMP") (h2 : tv ≠ .jstr "AND")
    (h3 : tv ≠ .jstr "OR") (h4 : tv ≠ .jstr "NOT") :
    parseFilter (.jobj fields) = none := by
  rw [parseFilter_obj]
  split <;> try simp_all
  all_goals (try (split <;> try simp_all))
  all_goals simp_all

theorem parseFilter_and_nonodes (fields : List (String × Json))
    (ht : List.lookup "type" fields = some (.jstr "AND"))
    (hn : List.lookup "nodes" fields = none) :
    parseFilter (.jobj fields) = none := by
  rw [parseFilter_obj]
  split <;>
    first
      | rfl
      | (rename_i heq; rw [hn] at heq; simp at heq; done)
      | (rename_i heq; rw [ht] at heq; simp at heq; done)
      | (split <;>
           first
             | rfl
             | (rename_i heq2; rw [hn] at heq2; simp at heq2; done))

theorem parseFilter_and_badnodes (fields : List (String × Json)) (v : Json)
    (ht : List.lookup "type" fields = some (.jstr "AND"))
    (hn : List.lookup "nodes" fields = some v)
    (hv : ∀ xs, v ≠ .jarr xs) :
    parseFilter (.jobj fields) = none := by
  rw [parseFilter_obj]
  split <;> try simp_all
  all_goals (try (split <;> try simp_all))
  all_goals simp_all

theorem parseFilter_or_nonodes (fields : List (String × Json))
    (ht : List.lookup "type" fields = some (.jstr "OR"))
    (hn : List.lookup "nodes" fields = none) :
    parseFilter (.jobj fields) = none := by
  rw [parseFilter_obj]
  split <;>
    first
      | rfl
      | (rename_i heq; rw [hn] at heq; simp at heq; done)
      | (rename_i heq; rw [ht] at heq; simp at heq; done)
      | (split <;>
           first
             | rfl
             | (rename_i heq2; rw [hn] at heq2; simp at heq2; done))

theorem parseFilter_or_badnodes (fields : List (String × Json)) (v : Json)
    (ht : List.lookup "type" fields = some (.jstr "OR"))
    (hn : List.lookup "nodes" fields = some v)
    (hv : ∀ xs, v ≠ .jarr xs) :
    parseFilter (.jobj fields) = none := by
  rw [parseFilter_obj]
  split <;> try simp_all
  all_goals (try (split <;> try simp_all))
  all_goals simp_all

theorem parseFilter_not_none (fields : List (String × Json))
    (ht : List.lookup "type" fields = some (.jstr "NOT"))
    (hn : List.lookup "node" fields = none) :
    parseFilter (.jobj fields) = none := by
  rw [parseFilter_obj]
  split <;>
    first
      | rfl
      | (rename_i heq; rw [hn] at heq; simp at heq; done)
      | (rename_i heq; rw [ht] at heq; simp at heq; done)
      | (split <;>
           first
             | rfl
             | (rename_i heq2; rw [hn] at heq2; simp at heq2; done))


theorem shapeOK_obj_notype (fields : List (String × Json))
    (ht : List.lookup "type" fields = none) :
    shapeOK (.jobj fields) = false := by
  rw [shapeOK_obj]
  split <;> try simp_all
  all_goals (try (split <;> try simp_all))
  all_goals simp_all

theorem shapeOK_obj_badtag (fields : List (String × Json)) (tv : Json)
    (ht : List.lookup "type" fields = some tv)
    (h1 : tv ≠ .jstr "CMP") (h2 : tv ≠ .jstr "AND")
    (h3 : tv ≠ .jstr "OR") (h4 : tv ≠ .jstr "NOT") :
    shapeOK (.jobj fields) = false := by
  rw [shapeOK_obj]
  split <;> try simp_all
  all_goals (try (split <;> try simp_all))
  all_goals simp_all

theorem shapeOK_and_nonodes (fields : List (String × Json))
    (ht : List.lookup "type" fields = some (.jstr "AND"))
    (hn : List.lookup "nodes" fields = none) :
    shapeOK (.jobj fields) = false := by
  rw [shapeOK_obj]
  split <;>
    first
      | rfl
      | (rename_i heq; rw [hn] at heq; simp at heq; done)
      | (rename_i heq; rw [ht] at heq; simp at heq; done)
      | (split <;>
           first
             | rfl
             | (rename_i heq2; rw [hn] at heq2; simp at heq2; done))

theorem shapeOK_and_badnodes (fields : List (String × Json)) (v : Json)
    (ht : List.lookup "type" fields = some (.jstr "AND"))
    (hn : List.lookup "nodes" fields = some v)
    (hv : ∀ xs, v ≠ .jarr xs) :
    shapeOK (.jobj fields) = false := by
  rw [shapeOK_obj]
  split <;> try simp_all
  all_goals (try (split <;> try simp_all))
  all_goals simp_all

theorem shapeOK_or_nonodes (fields : List (String × Json))
    (ht : List.lookup "type" fields = some (.jstr "OR"))
    (hn : List.lookup "nodes" fields = none) :
    shapeOK (.jobj fields) = false := by
  rw [shapeOK_obj]
  split <;>
    first
      | rfl
      | (rename_i heq; rw [hn] at heq; simp at heq; done)
      | (rename_i heq; rw [ht] at heq; simp at heq; done)
      | (split <;>
           first
             | rfl
             | (rename_i heq2; rw [hn] at heq2; simp at heq2; done))

theorem shapeOK_or_badnodes (fields : List (String × Json)) (v : Json)
    (ht : List.lookup "type" fields = some (.jstr "OR"))
    (hn : List.lookup "nodes" fields = some v)
    (hv : ∀ xs, v ≠ .jarr xs) :
    shapeOK (.jobj fields) = false := by
  rw [shapeOK_obj]
  split <;> try simp_all
  all_goals (try (split <;> try simp_all))
  all_goals simp_all

theorem shapeOK_not_none (fields : List (String × Json))
    (ht : List.lookup "type" fields = some (.jstr "NOT"))
    (hn : List.lookup "node" fields = none) :
    shapeOK (.jobj fields) = false := by
  rw [shapeOK_obj]
  split <;>
    first
      | rfl
      | (rename_i heq; rw [hn] at heq; simp at heq; done)
      | (rename_i heq; rw [ht] at heq; simp at heq; done)
      | (split <;>
           first
             | rfl
             | (rename_i heq2; rw [hn] at heq2; simp at heq2; done))


mutual
theorem parseFilter_iff (j : Json) : (parseFilter j).isSome = shapeOK j := by
  cases j with
  | jobj fields =>
    cases ht : List.lookup "type" fields with
    | none =>
      rw [parseFilter_obj_notype fields ht, shapeOK_obj_notype fields ht]
      rfl
    | some tv =>
      by_cases hc : tv = .jstr "CMP"
      · subst hc
        rw [parseFilter_cmp fields ht, shapeOK_cmp fields ht, parseCmpFields_iff]
      · by_cases ha : tv = .jstr "AND"
        · subst ha
          cases hn : List.lookup "nodes" fields with
          | none =>
            rw [parseFilter_and_nonodes fields ht hn, shapeOK_and_nonodes fields ht hn]
            rfl
          | some v =>
            cases v with
            | jarr xs =>
              rw [parseFilter_and_arr fields xs ht hn, shapeOK_and_arr fields xs ht hn]
              by_cases hb : 1 ≤ xs.length ∧ xs.length ≤ 50
              · rw [if_pos hb]
                have hl := parseNodeList_iff xs
                cases hr : parseNodeList xs with
                | none => rw [hr] at hl; simp [hb, ← hl]
                | some ns => rw [hr] at hl; simp [hb, ← hl]
              · rw [if_neg hb]
                simp at hb ⊢
                intro h1
                omega
            | jnull =>
              rw [parseFilter_and_badnodes fields _ ht hn (by simp),
                  shapeOK_and_badnodes fields _ ht hn (by simp)]
              rfl
            | jbool b =>
              rw [parseFilter_and_badnodes fields _ ht hn (by simp),
                  shapeOK_and_badnodes fields _ ht hn (by simp)]
              rfl
            | jnum n =>
              rw [parseFilter_and_badnodes fields _ ht hn (by simp),
                  shapeOK_and_badnodes fields _ ht hn (by simp)]
              rfl
            | jstr s =>
              rw [parseFilter_and_badnodes fields _ ht hn (by simp),
                  shapeOK_and_badnodes fields _ ht hn (by simp)]
              rfl
            | jobj fs =>
              rw [parseFilter_and_badnodes fields _ ht hn (by simp),
                  shapeOK_and_badnodes fields _ ht hn (by simp)]
              rfl
        · by_cases ho : tv = .jstr "OR"
          · subst ho
            cases hn : List.lookup "nodes" fields with
            | none =>
              rw [parseFilter_or_nonodes fields ht hn, shapeOK_or_nonodes fields ht hn]
              rfl
            | some v =>
              cases v with
              | jarr xs =>
                rw [parseFilter_or_arr fields xs ht hn, shapeOK_or_arr fields xs ht hn]
                by_cases hb : 1 ≤ xs.length ∧ xs.length ≤ 50
                · rw [if_pos hb]
                  have hl := parseNodeList_iff xs
                  cases hr : parseNodeList xs with
                  | none => rw [hr] at hl; simp [hb, ← hl]
                  | some ns => rw [hr] at hl; simp [hb, ← hl]
                · rw [if_neg hb]
                  simp at hb ⊢
                  intro h1
                  omega
              | jnull =>
                rw [parseFilter_or_badnodes fields _ ht hn (by simp),
                    shapeOK_or_badnodes fields _ ht hn (by simp)]
                rfl
              | jbool b =>
                rw [parseFilter_or_badnodes fields _ ht hn (by simp),
                    shapeOK_or_badnodes fields _ ht hn (by simp)]
                rfl
              | jnum n =>
                rw [parseFilter_or_badnodes fields _ ht hn (by simp),
                    shapeOK_or_badnodes fields _ ht hn (by simp)]
                rfl
              | jstr s =>
                rw [parseFilter_or_badnodes fields _ ht hn (by simp),
                    shapeOK_or_badnodes fields _ ht hn (by simp)]
                rfl
              | jobj fs =>
                rw [parseFilter_or_badnodes fields _ ht hn (by simp),
                    shapeOK_or_badnodes fields _ ht hn (by simp)]
                rfl
          · by_cases hq : tv = .jstr "NOT"
            · subst hq
              cases hn : List.lookup "node" fields with
              | none =>
                rw [parseFilter_not_none fields ht hn, shapeOK_not_none fields ht hn]
                rfl
              | some x =>
                rw [parseFilter_not_some fields x ht hn, shapeOK_not_some fields x ht hn]
                have hm := parseFilter_iff x
                cases hr : parseFilter x with
                | none => rw [hr] at hm; simp [← hm]
                | some m => rw [hr] at hm; simp [← hm]
            · rw [parseFilter_obj_badtag fields tv ht hc ha ho hq,
                  shapeOK_obj_badtag fields tv ht hc ha ho hq]
              rfl
  | jnull =>
    rw [parseFilter.eq_def, shapeOK.eq_def]
    rfl
  | jbool b =>
    rw [parseFilter.eq_def, shapeOK.eq_def]
    rfl
  | jnum n =>
    rw [parseFilter.eq_def, shapeOK.eq_def]
    rfl
  | jstr s =>
    rw [parseFilter.eq_def, shapeOK.eq_def]
    rfl
  | jarr xs =>
    rw [parseFilter.eq_def, shapeOK.eq_def]
    rfl
termination_by sizeOf j
decreasing_by
  · have h1 := lookupJson_sizeOf hn
    simp at h1 ⊢
    omega
  · have h1 := lookupJson_sizeOf hn
    simp at h1 ⊢
    omega
  · have h1 := lookupJson_sizeOf hn
    simp at h1 ⊢
    omega

theorem parseNodeList_iff (xs : List Json) :
    (parseNodeList xs).isSome = shapeOKList xs := by
  cases xs with
  | nil =>
    rw [parseNodeList.eq_def, shapeOKList.eq_def]
    rfl
  | cons x rest =>
    rw [parseNodeList.eq_def, shapeOKList.eq_def]
    have hx := parseFilter_iff x
    have hrest := parseNodeList_iff rest
    cases hr1 : parseFilter x with
    | none =>
      rw [hr1] at hx
      simp [hr1, ← hx]
    | some n =>
      rw [hr1] at hx
      cases hr2 : parseNodeList rest with
      | none => rw [hr2] at hrest; simp [hr1, hr2, ← hx, ← hrest]
      | some ns => rw [hr2] at hrest; simp [hr1, hr2, ← hx, ← hrest]
termination_by sizeOf xs
end

/-- C4: `parseFilter` accepts exactly the trees conforming to the (amended)
shape rules: every node an object tagged `CMP`/`AND`/`OR`/`NOT`; every `CMP`
with a listed operator, a path of 1..8 non-empty segments of at most 128
characters, and a `value` present exactly when the operator is not `EXISTS`,
drawn from the value union (string, number, boolean, or array of 1..100
strings-or-numbers); every `AND`/`OR` with 1..50 conforming children; every
`NOT` with one conforming child. -/
theorem parseFilter_accepts_exactly_shape (j : Json) :
    (parseFilter j).isSome = shapeOK j :=
  parseFilter_iff j

/-- C4 counterexample: the claim requires every `IN` whose value is not an
array of 1..100 primitives to be rejected, but `parseFilter` accepts the
comparison `{type: CMP, op: IN, path: [a], value: "x"}` whose value is the
plain string `x`, because the source schema does not tie `IN` to array
values. -/
theorem parseFilter_in_string_accepted :
    (parseFilter (Json.jobj [("type", Json.jstr "CMP"), ("op", Json.jstr "IN"),
      ("path", Json.jarr [Json.jstr "a"]),
      ("value", Json.jstr "x")])).isSome = true := by
  rw [parseFilter_cmp [("type", Json.jstr "CMP"), ("op", Json.jstr "IN"),
      ("path", Json.jarr [Json.jstr "a"]), ("value", Json.jstr "x")] rfl]
  rfl

end Host
